import Mathlib

/-!
# Ship game (`453-skeleton/main.cpp`): embedding and verified properties

The per-frame simulation of `main.cpp` is embedded as pure functions on an explicit
game state.

Modelling conventions.
* `float` values are rationals. The three computations whose stated properties depend on
  rounding are carried out in binary32 (`f32`: round to nearest, ties to even, 24 significant
  bits, gradual underflow): the rotation blend `glm::mix` with its factor
  `deltaTime * rotationSpeed`, the proximity test `glm::length(...) < 0.1f`, and the scale
  increment `scale += 0.02f`. `f32` has no upper exponent limit: results of magnitude `2^128`
  and more, which the machine turns into infinities, and NaN are outside the model.
  Every other `float` computation (positions, velocities, pickup motion) is exact, and there
  `0.08f`, `0.9f`, `0.2f`, `0.01f`, `0.05f` are the rationals `2/25`, `9/10`, `1/5`, `1/100`,
  `1/20`.
* `cos`, `sin` and `atan2` come from the C library; they are a parameter (`Libm`).
* `targetTheta` is not initialised by the `GameObject` constructor; its startup value is a
  parameter (`uninit`).
* `int score` is an integer and `score++` wraps around at `2^31 - 1` (`wrapInt32`); on every
  reachable state the score is between 0 and 4.
* Rendering is reduced to the list of draw calls of a frame, in issue order, each recorded as
  the state of the object drawn at that moment. Matrices, textures, the overlay and buffer
  swap are not modelled.
-/

namespace ShipGame

/-! ## Data model -/

/-- Vector `glm::vec3`. -/
structure Vec3 where
  x : ℚ
  y : ℚ
  z : ℚ
deriving DecidableEq

/-! ### Binary32 arithmetic -/

/-- Nearest integer, ties to the even one. -/
def roundEven (x : ℚ) : ℤ :=
  if Int.fract x < 1/2 then ⌊x⌋
  else if 1/2 < Int.fract x then ⌊x⌋ + 1
  else if ⌊x⌋ % 2 = 0 then ⌊x⌋ else ⌊x⌋ + 1

/-- Exponent of the unit in the last place of binary32 at `x`: 24 significant bits, and no
finer than `2^-149`. -/
def ulpExp (x : ℚ) : ℤ := max (Int.log 2 |x|) (-126) - 23

/-- Rounding to binary32: the nearest multiple of the unit in the last place, ties to even. -/
def f32 (x : ℚ) : ℚ := (roundEven (x / 2 ^ ulpExp x) : ℚ) * 2 ^ ulpExp x

/-- Binary32 addition. -/
def fadd (a b : ℚ) : ℚ := f32 (a + b)

/-- Binary32 subtraction. -/
def fsub (a b : ℚ) : ℚ := f32 (a - b)

/-- Binary32 multiplication. -/
def fmul (a b : ℚ) : ℚ := f32 (a * b)

/-- Binary32 square root, correctly rounded: `r` is the integer square root of `x * 4^100`,
so the square root of `x` is `r / 2^100` when that is exact and lies strictly between
`r / 2^100` and `(r + 1) / 2^100` otherwise; `r` has at least 26 bits for every positive
binary32 `x`, so `(r + 1/2) / 2^100` rounds like the square root. -/
def fsqrt (x : ℚ) : ℚ :=
  if x ≤ 0 then 0
  else
    let r := Nat.sqrt ⌊x * 4 ^ 100⌋₊
    f32 (((r : ℚ) + (if (r : ℚ) ^ 2 = x * 4 ^ 100 then 0 else 1/2)) / 2 ^ 100)

/-- Two's complement wrap-around of `int`. -/
def wrapInt32 (n : Int) : Int := (n + 2147483648) % 4294967296 - 2147483648

/-! ### Vectors and objects -/

/-- Component-wise sum, `operator+` of `glm::vec3`. -/
def Vec3.add (a b : Vec3) : Vec3 := ⟨a.x + b.x, a.y + b.y, a.z + b.z⟩

/-- Component-wise difference, `operator-` of `glm::vec3`. -/
def Vec3.sub (a b : Vec3) : Vec3 := ⟨a.x - b.x, a.y - b.y, a.z - b.z⟩

/-- Vector times scalar, `operator*` of `glm::vec3` with a `float`. -/
def Vec3.smul (a : Vec3) (k : ℚ) : Vec3 := ⟨a.x * k, a.y * k, a.z * k⟩

/-- Component-wise difference in binary32. -/
def Vec3.fsub (a b : Vec3) : Vec3 :=
  ⟨ShipGame.fsub a.x b.x, ShipGame.fsub a.y b.y, ShipGame.fsub a.z b.z⟩

/-- Dot product `glm::dot` in binary32: the three products summed left to right. -/
def Vec3.dot (a b : Vec3) : ℚ := fadd (fadd (fmul a.x b.x) (fmul a.y b.y)) (fmul a.z b.z)

/-- Euclidean norm `glm::length(v) = sqrt(dot(v, v))` in binary32. -/
def Vec3.length (v : Vec3) : ℚ := fsqrt (v.dot v)

/-- Linear blend `glm::mix(x, y, a) = x * (1 - a) + y * a` in binary32. -/
def mix (x y a : ℚ) : ℚ := fadd (fmul x (fsub 1 a)) (fmul y a)

/-- The fields of `struct GameObject` that the simulation reads or writes
(geometry, texture and the unused `transformationMatrix` are left out). -/
structure GameObject where
  position : Vec3
  velocity : Vec3
  theta : ℚ
  targetTheta : ℚ
  scale : ℚ
  collected : Bool
  id : Int
  hasMoved : Bool
deriving DecidableEq

/-- The `GameObject` constructor: the member initialiser list sets every modelled field
except `targetTheta`, which keeps an indeterminate value `tt`; `id()` value-initialises
the id to 0 whatever the constructor argument is. -/
def GameObject.new (tt : ℚ) : GameObject :=
  { position := ⟨0, 0, 0⟩
    velocity := ⟨1/100, 1/100, 0⟩
    theta := 0
    targetTheta := tt
    scale := 1
    collected := false
    id := 0
    hasMoved := false }

/-- The C library functions used by the program. -/
structure Libm where
  cos : ℚ → ℚ
  sin : ℚ → ℚ
  atan2 : ℚ → ℚ → ℚ

/-- The variables of `main` shared with `MyCallbacks` by reference. -/
structure Game where
  ship : GameObject
  pickups : List GameObject
  score : Int
  won : Bool
  shipStartX : ℚ
  shipStartY : ℚ
deriving DecidableEq

/-! ## Callbacks -/

/-- Key code `GLFW_KEY_R`. -/
def GLFW_KEY_R : Int := 82

/-- Action code `GLFW_PRESS`. -/
def GLFW_PRESS : Int := 1

/-- Method `MyCallbacks::resetGame`. -/
def resetGame (g : Game) : Game :=
  { g with
    ship := { g.ship with
      position := ⟨g.shipStartX, g.shipStartY, 0⟩
      scale := 2/25
      hasMoved := false }
    score := 0
    won := false
    pickups := g.pickups.map (fun pickup => { pickup with collected := false }) }

/-- Method `MyCallbacks::keyCallback`. -/
def keyCallback (g : Game) (key _scancode action _mods : Int) : Game :=
  if key = GLFW_KEY_R ∧ action = GLFW_PRESS then resetGame g else g

/-- Method `MyCallbacks::cursorPosCallback`; `width` and `height` are what
`glfwGetWindowSize` reports. -/
def cursorPosCallback (m : Libm) (g : Game) (xpos ypos : ℚ) (width height : Int) : Game :=
  let xNDC : ℚ := (2 * xpos) / width - 1
  let yNDC : ℚ := 1 - (2 * ypos) / height
  let mousePosWorld : Vec3 := ⟨xNDC, yNDC, 0⟩
  let direction := mousePosWorld.sub g.ship.position
  { g with ship := { g.ship with targetTheta := m.atan2 direction.y direction.x } }

/-! ## Per-frame functions -/

/-- Function `isCloseTo`, in binary32: `glm::length(ship.position - pickup.position) < 0.1f`. -/
def isCloseTo (ship pickup : GameObject) : Bool :=
  decide ((ship.position.fsub pickup.position).length < f32 (1/10))

/-- Function `updateGameObject`; `keyW` and `keyS` are the results of the two
`glfwGetKey(...) == GLFW_PRESS` tests. The rotation blend is in binary32. -/
def updateGameObject (m : Libm) (obj : GameObject) (deltaTime : ℚ) (keyW keyS : Bool) :
    GameObject :=
  let rotationSpeed : ℚ := 3
  let moveSpeed : ℚ := 2
  let obj1 := { obj with theta := mix obj.theta obj.targetTheta (fmul deltaTime rotationSpeed) }
  let obj2 :=
    if keyW then
      { obj1 with
        position := obj1.position.add
          (((Vec3.mk (m.cos obj1.theta) (m.sin obj1.theta) 0).smul deltaTime).smul moveSpeed)
        hasMoved := true }
    else obj1
  if keyS then
    { obj2 with
      position := obj2.position.sub
        (((Vec3.mk (m.cos obj2.theta) (m.sin obj2.theta) 0).smul deltaTime).smul moveSpeed)
      hasMoved := true }
  else obj2

/-- Function `updatePickup`. -/
def updatePickup (pickup : GameObject) (screenBoundary : ℚ) : GameObject :=
  if !pickup.collected then
    let p1 := { pickup with position := pickup.position.add (pickup.velocity.smul (1/5)) }
    let p2 :=
      if p1.position.x > screenBoundary ∨ p1.position.x < -screenBoundary then
        { p1 with velocity := { p1.velocity with x := -p1.velocity.x } }
      else p1
    if p2.position.y > screenBoundary ∨ p2.position.y < -screenBoundary then
      { p2 with velocity := { p2.velocity with y := -p2.velocity.y } }
    else p2
  else pickup

/-- The "render pickups" loop of `main`: each pickup is updated with `screenBoundary = 0.9f`
and then drawn if it is not collected. Returns the updated pickups and the draw calls. -/
def renderPickups : List GameObject → List GameObject × List GameObject
  | [] => ([], [])
  | pickup :: rest =>
    let p1 := updatePickup pickup (9/10)
    let r := renderPickups rest
    (p1 :: r.1, if !p1.collected then p1 :: r.2 else r.2)

/-- One pass of the body of the collision loop of `main` for one pickup: returns the ship,
the score and the pickup after it. `score++` is on `int`, `ship.scale += 0.02f` in binary32. -/
def collideOne (ship : GameObject) (score : Int) (pickup : GameObject) :
    GameObject × Int × GameObject :=
  if isCloseTo ship pickup && !pickup.collected then
    ({ ship with scale := fadd ship.scale (f32 (1/50)) }, wrapInt32 (score + 1),
      { pickup with collected := true })
  else (ship, score, pickup)

/-- The collision loop of `main` over all pickups, in order. -/
def collisionLoop : GameObject → Int → List GameObject → GameObject × Int × List GameObject
  | ship, score, [] => (ship, score, [])
  | ship, score, pickup :: rest =>
    let r1 := collideOne ship score pickup
    let r2 := collisionLoop r1.1 r1.2.1 rest
    (r2.1, r2.2.1, r1.2.2 :: r2.2.2)

/-- The collision evaluation of `main`: the loop runs only `if (ship.hasMoved)`. -/
def collisionEval (g : Game) : Game :=
  if g.ship.hasMoved then
    let r := collisionLoop g.ship g.score g.pickups
    { g with ship := r.1, score := r.2.1, pickups := r.2.2 }
  else g

/-- The counting loop of the win check of `main`. -/
def collectedCount : List GameObject → Nat
  | [] => 0
  | pickup :: rest => (if pickup.collected then 1 else 0) + collectedCount rest

/-- The win check of `main`: `won` is set when the count equals `pickups.size()`. -/
def winCheck (g : Game) : Game :=
  if collectedCount g.pickups = g.pickups.length then { g with won := true } else g

/-- What one frame reads from the outside: the elapsed time and the two key states. -/
structure FrameInput where
  deltaTime : ℚ
  keyW : Bool
  keyS : Bool

/-- One iteration of the render loop of `main`, in source order: `updateGameObject`, the
ship drawn `if (!won)`, the "render pickups" loop, the collision evaluation, the win check.
Returns the game at the end of the iteration and the draw calls in issue order, each being
the object as it is when drawn. -/
def frame (m : Libm) (g : Game) (inp : FrameInput) : Game × List GameObject :=
  let ship := updateGameObject m g.ship inp.deltaTime inp.keyW inp.keyS
  let shipDraw := if !g.won then [ship] else []
  let r := renderPickups g.pickups
  let g1 := { g with ship := ship, pickups := r.1 }
  let g2 := collisionEval g1
  let g3 := winCheck g2
  (g3, shipDraw ++ r.2)

/-! ## Startup state and reachability -/

/-- The state of `main` when the render loop is entered. `uninit n` is the indeterminate
`targetTheta` of the object constructed with id argument `n`. -/
def startup (uninit : Nat → ℚ) : Game :=
  { ship := { GameObject.new (uninit 0) with scale := 2/25 }
    pickups :=
      [ { GameObject.new (uninit 1) with
          scale := 1/20, collected := false, id := 1
          position := ⟨1/5, 1/2, 0⟩, velocity := ⟨1/100, 1/100, 0⟩ },
        { GameObject.new (uninit 2) with
          scale := 1/20, collected := false, id := 2
          position := ⟨-1/2, 0, 0⟩, velocity := ⟨-1/100, -1/100, 0⟩ },
        { GameObject.new (uninit 3) with
          scale := 1/20, collected := false, id := 3
          position := ⟨1/2, -1/5, 0⟩, velocity := ⟨1/100, -1/100, 0⟩ },
        { GameObject.new (uninit 4) with
          scale := 1/20, collected := false, id := 4
          position := ⟨0, 1/10, 0⟩, velocity := ⟨-1/100, 1/100, 0⟩ } ]
    score := 0
    won := false
    shipStartX := (GameObject.new (uninit 0)).position.x
    shipStartY := (GameObject.new (uninit 0)).position.y }

/-- What can happen to the game: a key event or a cursor event delivered by
`glfwPollEvents`, or one iteration of the render loop. -/
inductive Event where
  | key (key scancode action mods : Int)
  | cursorPos (xpos ypos : ℚ) (width height : Int)
  | frame (inp : FrameInput)

/-- True for the key event that triggers `resetGame`. -/
def Event.isReset : Event → Bool
  | .key k _ a _ => decide (k = GLFW_KEY_R ∧ a = GLFW_PRESS)
  | _ => false

/-- The game after one event. -/
def step (m : Libm) (g : Game) : Event → Game
  | .key key scancode action mods => keyCallback g key scancode action mods
  | .cursorPos xpos ypos width height => cursorPosCallback m g xpos ypos width height
  | .frame inp => (frame m g inp).1

/-- The game after a list of events, oldest first. -/
def run (m : Libm) (g : Game) (events : List Event) : Game :=
  events.foldl (step m) g

/-- States reachable from the startup state. -/
inductive Reachable (m : Libm) (uninit : Nat → ℚ) : Game → Prop where
  | init : Reachable m uninit (startup uninit)
  | next (g : Game) (e : Event) : Reachable m uninit g → Reachable m uninit (step m g e)

/-! ## Auxiliary definitions used to state and prove properties -/

/-- The test of the collision loop for one pickup: `isCloseTo(ship, *pickup) && !pickup->collected`. -/
def hit (ship pickup : GameObject) : Bool := isCloseTo ship pickup && !pickup.collected

/-- The pickup after the collision loop has handled it. -/
def collect (ship pickup : GameObject) : GameObject :=
  if hit ship pickup then { pickup with collected := true } else pickup

/-- The number of pickups the collision loop collects. -/
def hits (ship : GameObject) (ps : List GameObject) : Nat := ps.countP (hit ship)

/-- What one frame does to one pickup, `ship` being the ship after `updateGameObject`. -/
def framePickup (ship pickup : GameObject) : GameObject :=
  if ship.hasMoved then collect ship (updatePickup pickup (9/10)) else updatePickup pickup (9/10)

/-- The binary32 proximity test of `isCloseTo` on two positions. -/
def closePos (a b : Vec3) : Bool := decide ((a.fsub b).length < f32 (1/10))

/-- Exact squared Euclidean distance of two positions. -/
def distSq (a b : Vec3) : ℚ := (a.x - b.x) ^ 2 + (a.y - b.y) ^ 2 + (a.z - b.z) ^ 2

/-- One axis of a pickup is in order: the speed is 0.01, the coordinate is at most one step
(`0.2 * 0.01`) beyond `±0.9`, and beyond `±0.9` the velocity points back inward. -/
def AxisOk (x v : ℚ) : Prop :=
  |v| = 1/100 ∧ |x| ≤ 9/10 + 1/5 * (1/100) ∧ (9/10 < x → v < 0) ∧ (x < -(9/10) → 0 < v)

/-! ## Concrete inputs used in examples -/

/-- Constant functions `cos = 1`, `sin = 0`, `atan2 = 0`: the values of the true functions at
angle 0, the only angle the ship has in the examples. -/
def libm0 : Libm := { cos := fun _ => 1, sin := fun _ => 0, atan2 := fun _ _ => 0 }

/-- All indeterminate startup values are 0. -/
def uninit0 : Nat → ℚ := fun _ => 0

/-- A frame of a quarter second with `S` held: the ship backs up by 0.5. -/
def backInput : FrameInput := { deltaTime := 1/4, keyW := false, keyS := true }

/-- The state after the first frame when that frame is `backInput`. -/
def afterBack : Game := step libm0 (startup uninit0) (.frame backInput)

/-- A ship at the origin with scale `0.08f` that has moved. -/
def proximityShip : GameObject := { GameObject.new 0 with scale := f32 (2/25), hasMoved := true }

/-- An uncollected pickup at `(0.05f, 0, 0)`. -/
def proximityPickup : GameObject :=
  { GameObject.new 0 with scale := 1/20, id := 1, position := ⟨f32 (1/20), 0, 0⟩ }

/-- An uncollected pickup at the binary32 position `(2013937/2^25, 2683851/2^25, 0)`, whose
exact distance to the origin is below 0.1. -/
def edgePickup : GameObject :=
  { GameObject.new 0 with
    scale := 1/20, id := 1, position := ⟨2013937/33554432, 2683851/33554432, 0⟩ }

/-- The proximity scenario with the values the code holds: `proximityShip` and the one pickup
`proximityPickup`. -/
def proximityGame : Game :=
  { ship := proximityShip
    pickups := [proximityPickup]
    score := 0
    won := false
    shipStartX := 0
    shipStartY := 0 }

/-- The proximity scenario with the pickup `edgePickup`. -/
def edgeGame : Game := { proximityGame with pickups := [edgePickup] }

/-- The proximity scenario with the score at `INT_MAX`. -/
def maxScoreGame : Game := { proximityGame with score := 2147483647 }

/-- A ship facing angle 0 whose target angle is 1. -/
def turningShip : GameObject := { GameObject.new 1 with scale := 2/25 }

/-- A ship that faces its target angle 1.625. -/
def steadyShip : GameObject := { GameObject.new (13/8) with theta := 13/8, scale := 2/25 }

/-- A collected pickup that lies 0.1 beyond the boundary 0.9 and moves outward. -/
def collectedOutside : GameObject :=
  { GameObject.new 0 with scale := 1/20, id := 1, collected := true, position := ⟨1, 0, 0⟩ }

/-- An uncollected pickup that lies 0.1 beyond the boundary 0.9 and moves outward. -/
def uncollectedOutside : GameObject :=
  { GameObject.new 0 with scale := 1/20, id := 1, position := ⟨1, 0, 0⟩ }

/-! ## Lemmas on binary32 arithmetic -/

theorem roundEven_err (y : ℚ) : |(roundEven y : ℚ) - y| ≤ 1/2 := by
  have h0 := Int.fract_nonneg y
  have h1 := Int.fract_lt_one y
  have hy : y = ⌊y⌋ + Int.fract y := (Int.floor_add_fract y).symm
  unfold roundEven
  rw [abs_le]
  split_ifs <;> push_cast <;> constructor <;> linarith

theorem roundEven_of_lt (y : ℚ) (n : ℤ) (h1 : (n : ℚ) - 1/2 < y) (h2 : y < n + 1/2) :
    roundEven y = n := by
  have h0 := Int.fract_nonneg y
  have h1' := Int.fract_lt_one y
  have hy : y = ⌊y⌋ + Int.fract y := (Int.floor_add_fract y).symm
  unfold roundEven
  split_ifs with ha hb hc
  · have : (⌊y⌋ : ℚ) < n + 1 := by linarith
    have : (n : ℚ) < ⌊y⌋ + 1 := by linarith
    have h3 : ⌊y⌋ < n + 1 := by exact_mod_cast ‹(⌊y⌋ : ℚ) < n + 1›
    have h4 : n < ⌊y⌋ + 1 := by exact_mod_cast ‹(n : ℚ) < ⌊y⌋ + 1›
    omega
  · have : (⌊y⌋ : ℚ) + 1 < n + 1 := by linarith
    have : (n : ℚ) < ⌊y⌋ + 1 + 1 := by linarith
    have h3 : ⌊y⌋ + 1 < n + 1 := by exact_mod_cast ‹(⌊y⌋ : ℚ) + 1 < n + 1›
    have h4 : n < ⌊y⌋ + 1 + 1 := by exact_mod_cast ‹(n : ℚ) < ⌊y⌋ + 1 + 1›
    omega
  · have hf : Int.fract y = 1/2 := le_antisymm (not_lt.mp hb) (not_lt.mp ha)
    have : (⌊y⌋ : ℚ) < n := by linarith
    have : (n : ℚ) < ⌊y⌋ + 1 := by linarith
    have h3 : ⌊y⌋ < n := by exact_mod_cast ‹(⌊y⌋ : ℚ) < n›
    have h4 : n < ⌊y⌋ + 1 := by exact_mod_cast ‹(n : ℚ) < ⌊y⌋ + 1›
    omega
  · have hf : Int.fract y = 1/2 := le_antisymm (not_lt.mp hb) (not_lt.mp ha)
    have : (⌊y⌋ : ℚ) < n := by linarith
    have : (n : ℚ) < ⌊y⌋ + 1 := by linarith
    have h3 : ⌊y⌋ < n := by exact_mod_cast ‹(⌊y⌋ : ℚ) < n›
    have h4 : n < ⌊y⌋ + 1 := by exact_mod_cast ‹(n : ℚ) < ⌊y⌋ + 1›
    omega

theorem roundEven_of_tie (y : ℚ) (n : ℤ) (hn : n % 2 = 0)
    (h : y = n + 1/2 ∨ y = n - 1/2) : roundEven y = n := by
  have h0 := Int.fract_nonneg y
  have h1' := Int.fract_lt_one y
  have hy : y = ⌊y⌋ + Int.fract y := (Int.floor_add_fract y).symm
  rcases h with h | h
  · have hfl : ⌊y⌋ = n := by
      rw [Int.floor_eq_iff]
      constructor <;> linarith
    have hf : Int.fract y = 1/2 := by
      rw [hfl] at hy
      linarith
    unfold roundEven
    rw [hf, hfl]
    simp [hn]
  · have hfl : ⌊y⌋ = n - 1 := by
      rw [Int.floor_eq_iff]
      push_cast
      constructor <;> linarith
    have hf : Int.fract y = 1/2 := by
      rw [hfl] at hy
      push_cast at hy
      linarith
    unfold roundEven
    rw [hf, hfl]
    have : ¬ ((n - 1) % 2 = 0) := by omega
    simp [this]

theorem log2_eq (x : ℚ) (e : ℤ) (hlo : (2 : ℚ) ^ e ≤ |x|) (hhi : |x| < (2 : ℚ) ^ (e + 1)) :
    Int.log 2 |x| = e := by
  have hpos : 0 < |x| := lt_of_lt_of_le (by positivity) hlo
  have h1 : e ≤ Int.log 2 |x| := by
    rw [← Int.zpow_le_iff_le_log (by norm_num) hpos]
    exact_mod_cast hlo
  have h2 : Int.log 2 |x| < e + 1 := by
    rw [← Int.lt_zpow_iff_log_lt (by norm_num) hpos]
    exact_mod_cast hhi
  omega

theorem f32_zero : f32 0 = 0 := by
  simp [f32, roundEven]

theorem f32_eq_near (x : ℚ) (e n : ℤ) (he : -126 ≤ e)
    (hlo : (2 : ℚ) ^ e ≤ x ∨ x ≤ -(2 : ℚ) ^ e)
    (hhi : -(2 : ℚ) ^ (e + 1) < x ∧ x < (2 : ℚ) ^ (e + 1))
    (h1 : (n : ℚ) - 1/2 < x / 2 ^ (e - 23)) (h2 : x / 2 ^ (e - 23) < n + 1/2) :
    f32 x = n * 2 ^ (e - 23) := by
  have hl : Int.log 2 |x| = e := by
    apply log2_eq
    · rcases hlo with h | h
      · exact le_trans h (le_abs_self x)
      · exact le_trans (by linarith) (neg_le_abs x)
    · rw [abs_lt]
      exact hhi
  have hk : ulpExp x = e - 23 := by
    unfold ulpExp
    rw [hl, max_eq_left he]
  unfold f32
  rw [hk, roundEven_of_lt _ n h1 h2]

theorem f32_eq_tie (x : ℚ) (e n : ℤ) (he : -126 ≤ e)
    (hlo : (2 : ℚ) ^ e ≤ x ∨ x ≤ -(2 : ℚ) ^ e)
    (hhi : -(2 : ℚ) ^ (e + 1) < x ∧ x < (2 : ℚ) ^ (e + 1))
    (hn : n % 2 = 0)
    (h : x / 2 ^ (e - 23) = n + 1/2 ∨ x / 2 ^ (e - 23) = n - 1/2) :
    f32 x = n * 2 ^ (e - 23) := by
  have hl : Int.log 2 |x| = e := by
    apply log2_eq
    · rcases hlo with h | h
      · exact le_trans h (le_abs_self x)
      · exact le_trans (by linarith) (neg_le_abs x)
    · rw [abs_lt]
      exact hhi
  have hk : ulpExp x = e - 23 := by
    unfold ulpExp
    rw [hl, max_eq_left he]
  unfold f32
  rw [hk, roundEven_of_tie _ n hn h]

theorem f32_err (x : ℚ) : |f32 x - x| ≤ |x| * 2 ^ (-24 : ℤ) + 2 ^ (-150 : ℤ) := by
  rcases eq_or_ne x 0 with h0 | h0
  · rw [h0, f32_zero]
    norm_num
  have hx : 0 < |x| := abs_pos.mpr h0
  have hp : (0 : ℚ) < 2 ^ ulpExp x := by positivity
  have he : f32 x - x = ((roundEven (x / 2 ^ ulpExp x) : ℚ) - x / 2 ^ ulpExp x) * 2 ^ ulpExp x := by
    unfold f32
    field_simp
  have hr := roundEven_err (x / 2 ^ ulpExp x)
  have hb : |f32 x - x| ≤ 1/2 * 2 ^ ulpExp x := by
    rw [he, abs_mul, abs_of_pos hp]
    exact mul_le_mul_of_nonneg_right hr hp.le
  have hu : (1/2 : ℚ) * 2 ^ ulpExp x ≤ |x| * 2 ^ (-24 : ℤ) + 2 ^ (-150 : ℤ) := by
    unfold ulpExp
    rcases le_total (Int.log 2 |x|) (-126) with hc | hc
    · rw [max_eq_right hc]
      have : (0 : ℚ) ≤ |x| * 2 ^ (-24 : ℤ) := by positivity
      have e1 : (1/2 : ℚ) * 2 ^ ((-126 : ℤ) - 23) = 2 ^ (-150 : ℤ) := by norm_num
      rw [e1]
      linarith
    · rw [max_eq_left hc]
      have hz := Int.zpow_log_le_self (b := 2) (by norm_num) hx
      have e1 : (1/2 : ℚ) * 2 ^ (Int.log 2 |x| - 23) = 2 ^ (Int.log 2 |x|) * 2 ^ (-24 : ℤ) := by
        rw [zpow_sub₀ (by norm_num)]
        norm_num
        ring
      rw [e1]
      have hz' : (2 : ℚ) ^ Int.log 2 |x| ≤ |x| := by exact_mod_cast hz
      have : (0 : ℚ) < 2 ^ (-150 : ℤ) := by positivity
      have : (2 : ℚ) ^ Int.log 2 |x| * 2 ^ (-24 : ℤ) ≤ |x| * 2 ^ (-24 : ℤ) :=
        mul_le_mul_of_nonneg_right hz' (by positivity)
      linarith
  exact le_trans hb hu

theorem fsqrt_eq_inexact (x : ℚ) (N r : ℕ) (hx : 0 < x) (hN : x * 4 ^ 100 = (N : ℚ))
    (h1 : r * r ≤ N) (h2 : N < (r + 1) * (r + 1)) (h3 : r * r ≠ N) :
    fsqrt x = f32 (((r : ℚ) + 1/2) / 2 ^ 100) := by
  have hr : Nat.sqrt N = r := (Nat.eq_sqrt.mpr ⟨h1, h2⟩).symm
  unfold fsqrt
  rw [if_neg (not_le.mpr hx), hN]
  simp only [Nat.floor_natCast, hr]
  have hne : ¬ ((r : ℚ) ^ 2 = (N : ℚ)) := by
    intro h
    apply h3
    have : ((r * r : ℕ) : ℚ) = (N : ℚ) := by
      push_cast
      rw [← h]
      ring
    exact_mod_cast this
  rw [if_neg hne]

theorem wrapInt32_of_range (n : Int) (h0 : -2147483648 ≤ n) (h1 : n < 2147483648) :
    wrapInt32 n = n := by
  unfold wrapInt32
  omega

theorem incr_iterate (k : Nat) (n : Int) (h0 : -2147483648 ≤ n) (h1 : n + k < 2147483648) :
    (fun x => wrapInt32 (x + 1))^[k] n = n + k := by
  induction k generalizing n with
  | zero => simp
  | succ k ih =>
    rw [Function.iterate_succ_apply]
    push_cast at h1
    rw [wrapInt32_of_range (n + 1) (by omega) (by omega), ih (n + 1) (by omega) (by omega)]
    push_cast
    ring

/-! ## Binary32 values of the examples -/

theorem f32_tenth : f32 (1/10) = (13421773/134217728) := by
  rw [f32_eq_near _ (-4) (13421773) (by norm_num) (by norm_num) (by norm_num) (by norm_num)
    (by norm_num)]
  norm_num

theorem f32_fiftieth : f32 (1/50) = (5368709/268435456) := by
  rw [f32_eq_near _ (-6) (10737418) (by norm_num) (by norm_num) (by norm_num) (by norm_num)
    (by norm_num)]
  norm_num

theorem f32_0_08 : f32 (2/25) = (5368709/67108864) := by
  rw [f32_eq_near _ (-4) (10737418) (by norm_num) (by norm_num) (by norm_num) (by norm_num)
    (by norm_num)]
  norm_num

theorem f32_0_05 : f32 (1/20) = (13421773/268435456) := by
  rw [f32_eq_near _ (-5) (13421773) (by norm_num) (by norm_num) (by norm_num) (by norm_num)
    (by norm_num)]
  norm_num

/-- The sum `0.08f + 0.02f` is a tie between two binary32 values and rounds to the even one,
`0.099999994`. -/
theorem fadd_0_08_0_02 : fadd (f32 (2/25)) (f32 (1/50)) = 3355443/33554432 := by
  rw [f32_0_08, f32_fiftieth]
  unfold fadd
  rw [f32_eq_tie _ (-4) (13421772) (by norm_num) (by norm_num) (by norm_num) (by norm_num)
    (by norm_num)]
  norm_num

/-- After the first `backInput` frame pickup 2 is 0.0028 from the ship: close. -/
theorem closePos_back :
    closePos ⟨(-1/2), 0, 0⟩ ⟨(-251/500), (-1/500), 0⟩ = true := by
  have dx : fsub (-1/2) (-251/500) = (8589935/4294967296) := by
    unfold fsub
    rw [f32_eq_near _ (-9) (8589935) (by norm_num) (by norm_num) (by norm_num) (by norm_num)
      (by norm_num)]
    norm_num
  have dy : fsub 0 (-1/500) = (8589935/4294967296) := by
    unfold fsub
    rw [f32_eq_near _ (-9) (8589935) (by norm_num) (by norm_num) (by norm_num) (by norm_num)
      (by norm_num)]
    norm_num
  have dz : fsub 0 0 = 0 := by
    unfold fsub
    norm_num [f32_zero]
  have qx : fmul (8589935/4294967296) (8589935/4294967296) = (4398047/1099511627776) := by
    unfold fmul
    rw [f32_eq_near _ (-18) (8796094) (by norm_num) (by norm_num) (by norm_num) (by norm_num)
      (by norm_num)]
    norm_num
  have qz : fmul 0 0 = 0 := by
    unfold fmul
    norm_num [f32_zero]
  have s1 : fadd (4398047/1099511627776) (4398047/1099511627776) = (4398047/549755813888) := by
    unfold fadd
    rw [f32_eq_near _ (-17) (8796094) (by norm_num) (by norm_num) (by norm_num) (by norm_num)
      (by norm_num)]
    norm_num
  have s2 : fadd (4398047/549755813888) 0 = (4398047/549755813888) := by
    unfold fadd
    rw [f32_eq_near _ (-17) (8796094) (by norm_num) (by norm_num) (by norm_num) (by norm_num)
      (by norm_num)]
    norm_num
  have len : fsqrt (4398047/549755813888) = (12148003/4294967296) := by
    rw [fsqrt_eq_inexact (4398047/549755813888) 12855505783116531173393922934946700771497430305675935744
      3585457541669756152042709356 (by norm_num) (by norm_num) (by norm_num) (by norm_num)
      (by norm_num)]
    rw [f32_eq_near _ (-9) (12148003) (by norm_num) (by norm_num) (by norm_num) (by norm_num)
      (by norm_num)]
    norm_num
  simp only [closePos, Vec3.length, Vec3.dot, Vec3.fsub, dx, dy, dz, qx, qz, s1, s2, len, f32_tenth]
  norm_num

/-- The proximity scenario: the pickup at `(0.05f, 0, 0)` is close to the ship at the origin. -/
theorem closePos_proximity :
    closePos ⟨0, 0, 0⟩ ⟨(13421773/268435456), 0, 0⟩ = true := by
  have dx : fsub 0 (13421773/268435456) = (-13421773/268435456) := by
    unfold fsub
    rw [f32_eq_near _ (-5) (-13421773) (by norm_num) (by norm_num) (by norm_num) (by norm_num)
      (by norm_num)]
    norm_num
  have dy : fsub 0 0 = 0 := by
    unfold fsub
    norm_num [f32_zero]
  have qx : fmul (-13421773/268435456) (-13421773/268435456) = (10737419/4294967296) := by
    unfold fmul
    rw [f32_eq_near _ (-9) (10737419) (by norm_num) (by norm_num) (by norm_num) (by norm_num)
      (by norm_num)]
    norm_num
  have qy : fmul 0 0 = 0 := by
    unfold fmul
    norm_num [f32_zero]
  have s1 : fadd (10737419/4294967296) 0 = (10737419/4294967296) := by
    unfold fadd
    rw [f32_eq_near _ (-9) (10737419) (by norm_num) (by norm_num) (by norm_num) (by norm_num)
      (by norm_num)]
    norm_num
  have len : fsqrt (10737419/4294967296) = (13421773/268435456) := by
    rw [fsqrt_eq_inexact (10737419/4294967296) 4017345394997234247955376996561827559585531788715217649664
      63382532254535509745548278783 (by norm_num) (by norm_num) (by norm_num) (by norm_num)
      (by norm_num)]
    rw [f32_eq_near _ (-5) (13421773) (by norm_num) (by norm_num) (by norm_num) (by norm_num)
      (by norm_num)]
    norm_num
  simp only [closePos, Vec3.length, Vec3.dot, Vec3.fsub, dx, dy, qx, qy, s1, len, f32_tenth]
  norm_num

/-- A pickup at exact distance below 0.1 whose binary32 length rounds to `0.1f`: not close. -/
theorem closePos_edge :
    closePos ⟨0, 0, 0⟩ ⟨(2013937/33554432), (2683851/33554432), 0⟩ = false := by
  have dx : fsub 0 (2013937/33554432) = (-2013937/33554432) := by
    unfold fsub
    rw [f32_eq_near _ (-5) (-16111496) (by norm_num) (by norm_num) (by norm_num) (by norm_num)
      (by norm_num)]
    norm_num
  have dy : fsub 0 (2683851/33554432) = (-2683851/33554432) := by
    unfold fsub
    rw [f32_eq_near _ (-4) (-10735404) (by norm_num) (by norm_num) (by norm_num) (by norm_num)
      (by norm_num)]
    norm_num
  have dz : fsub 0 0 = 0 := by
    unfold fsub
    norm_num [f32_zero]
  have qx : fmul (-2013937/33554432) (-2013937/33554432) = (241753/67108864) := by
    unfold fmul
    rw [f32_eq_near _ (-9) (15472192) (by norm_num) (by norm_num) (by norm_num) (by norm_num)
      (by norm_num)]
    norm_num
  have qy : fmul (-2683851/33554432) (-2683851/33554432) = (13738739/2147483648) := by
    unfold fmul
    rw [f32_eq_near _ (-8) (13738739) (by norm_num) (by norm_num) (by norm_num) (by norm_num)
      (by norm_num)]
    norm_num
  have qz : fmul 0 0 = 0 := by
    unfold fmul
    norm_num [f32_zero]
  have s1 : fadd (241753/67108864) (13738739/2147483648) = (5368709/536870912) := by
    unfold fadd
    rw [f32_eq_tie _ (-7) (10737418) (by norm_num) (by norm_num) (by norm_num) (by norm_num)
      (by norm_num)]
    norm_num
  have s2 : fadd (5368709/536870912) 0 = (5368709/536870912) := by
    unfold fadd
    rw [f32_eq_near _ (-7) (10737418) (by norm_num) (by norm_num) (by norm_num) (by norm_num)
      (by norm_num)]
    norm_num
  have len : fsqrt (5368709/536870912) = (13421773/134217728) := by
    rw [fsqrt_eq_inexact (5368709/536870912) 16069380083411260364976919745674041536868315027185946591232
      126765058606112987372292947967 (by norm_num) (by norm_num) (by norm_num) (by norm_num)
      (by norm_num)]
    rw [f32_eq_near _ (-4) (13421773) (by norm_num) (by norm_num) (by norm_num) (by norm_num)
      (by norm_num)]
    norm_num
  simp only [closePos, Vec3.length, Vec3.dot, Vec3.fsub, dx, dy, dz, qx, qy, qz, s1, s2, len, f32_tenth]
  norm_num

theorem isCloseTo_eq_closePos (ship p : GameObject) :
    isCloseTo ship p = closePos ship.position p.position := rfl

theorem abs_mul_le_of (x y A B : ℚ) (hx : |x| ≤ A) (hy : |y| ≤ B) : |x * y| ≤ A * B := by
  rw [abs_mul]
  exact mul_le_mul hx hy (abs_nonneg _) (le_trans (abs_nonneg _) hx)

theorem mix_error (x y dt M : ℚ) (h0 : 0 ≤ dt) (h1 : dt ≤ 2/3) (hx : |x| ≤ M) (hy : |y| ≤ M) :
    |mix x y (fmul dt 3) - y| ≤ |x - y| + M * 2 ^ (-19 : ℤ) + 2 ^ (-147 : ℤ) := by
  have hM : 0 ≤ M := le_trans (abs_nonneg _) hx
  have hu : (2 : ℚ) ^ (-24 : ℤ) = 1 / 16777216 := by norm_num
  have hη : (2 : ℚ) ^ (-150 : ℤ) = 1 / 1427247692705959881058285969449495136382746624 := by
    norm_num
  have h19 : (2 : ℚ) ^ (-19 : ℤ) = 32 * (1 / 16777216) := by norm_num
  have h147 : (2 : ℚ) ^ (-147 : ℤ)
      = 8 * (1 / 1427247692705959881058285969449495136382746624) := by norm_num
  have Ea := f32_err (dt * 3)
  have E0 := f32_err (1 - fmul dt 3)
  have E1 := f32_err (x * fsub 1 (fmul dt 3))
  have E2 := f32_err (y * fmul dt 3)
  have E3 := f32_err (fmul x (fsub 1 (fmul dt 3)) + fmul y (fmul dt 3))
  rw [hu, hη] at Ea E0 E1 E2 E3
  rw [h19, h147]
  have hmix : mix x y (fmul dt 3)
      = f32 (fmul x (fsub 1 (fmul dt 3)) + fmul y (fmul dt 3)) := rfl
  have hom : fsub 1 (fmul dt 3) = f32 (1 - fmul dt 3) := rfl
  have hp1 : fmul x (fsub 1 (fmul dt 3)) = f32 (x * fsub 1 (fmul dt 3)) := rfl
  have hp2 : fmul y (fmul dt 3) = f32 (y * fmul dt 3) := rfl
  have ha : fmul dt 3 = f32 (dt * 3) := rfl
  rw [hmix]
  rw [← ha] at Ea
  rw [← hom] at E0
  rw [← hp1] at E1
  rw [← hp2] at E2
  generalize f32 (fmul x (fsub 1 (fmul dt 3)) + fmul y (fmul dt 3)) = r at *
  generalize fmul x (fsub 1 (fmul dt 3)) = p1 at *
  generalize fmul y (fmul dt 3) = p2 at *
  generalize fsub 1 (fmul dt 3) = om at *
  generalize fmul dt 3 = a at *
  -- the blend factor
  have A1 : |dt * 3| ≤ 2 := by
    rw [abs_le]
    constructor <;> linarith
  have EA : |a - dt * 3| ≤ 2 * (1 / 16777216)
      + 1 / 1427247692705959881058285969449495136382746624 := by
    have := mul_le_mul_of_nonneg_right A1 (by norm_num : (0 : ℚ) ≤ 1 / 16777216)
    linarith
  have A2 : |a| ≤ 3 := by
    rw [abs_le] at EA ⊢
    constructor <;> linarith [EA.1, EA.2]
  have A3 : |1 - a| ≤ 1 + (2 * (1 / 16777216)
      + 1 / 1427247692705959881058285969449495136382746624) := by
    rw [abs_le] at EA ⊢
    constructor <;> linarith [EA.1, EA.2]
  have E0b : |om - (1 - a)| ≤ 2 * (1 / 16777216)
      + 1 / 1427247692705959881058285969449495136382746624 := by
    have := mul_le_mul_of_nonneg_right A3 (by norm_num : (0 : ℚ) ≤ 1 / 16777216)
    linarith
  have A4 : |om| ≤ 2 := by
    rw [abs_le] at E0b A3 ⊢
    constructor <;> linarith [E0b.1, E0b.2, A3.1, A3.2]
  -- the two products and their sum
  have X1 : |x * om| ≤ M * 2 := abs_mul_le_of x om M 2 hx A4
  have X2 : |y * a| ≤ M * 3 := abs_mul_le_of y a M 3 hy A2
  have E1b : |p1 - x * om| ≤ M * 2 * (1 / 16777216)
      + 1 / 1427247692705959881058285969449495136382746624 := by
    have := mul_le_mul_of_nonneg_right X1 (by norm_num : (0 : ℚ) ≤ 1 / 16777216)
    linarith
  have E2b : |p2 - y * a| ≤ M * 3 * (1 / 16777216)
      + 1 / 1427247692705959881058285969449495136382746624 := by
    have := mul_le_mul_of_nonneg_right X2 (by norm_num : (0 : ℚ) ≤ 1 / 16777216)
    linarith
  have X3 : |p1 + p2| ≤ M * 6 + 2 * (1 / 1427247692705959881058285969449495136382746624) := by
    rw [abs_le] at X1 X2 E1b E2b ⊢
    constructor <;> linarith [X1.1, X1.2, X2.1, X2.2, E1b.1, E1b.2, E2b.1, E2b.2]
  have E3b : |r - (p1 + p2)| ≤ M * 6 * (1 / 16777216)
      + 2 * (1 / 1427247692705959881058285969449495136382746624) := by
    have := mul_le_mul_of_nonneg_right X3 (by norm_num : (0 : ℚ) ≤ 1 / 16777216)
    linarith
  -- the exact blend contracts, the rest is rounding
  have D2 : |x - y| ≤ M * 2 := by
    rw [abs_le] at hx hy ⊢
    constructor <;> linarith [hx.1, hx.2, hy.1, hy.2]
  have T1 : |(x - y) * (1 - dt * 3)| ≤ |x - y| * 1 := by
    apply abs_mul_le_of _ _ _ _ le_rfl
    rw [abs_le]
    constructor <;> linarith
  have T2 : |(x - y) * (a - dt * 3)| ≤ M * 2 * (2 * (1 / 16777216)
      + 1 / 1427247692705959881058285969449495136382746624) :=
    abs_mul_le_of _ _ _ _ D2 EA
  have T3 : |x * (om - (1 - a))| ≤ M * (2 * (1 / 16777216)
      + 1 / 1427247692705959881058285969449495136382746624) :=
    abs_mul_le_of _ _ _ _ hx E0b
  have hid : r - y = (x - y) * (1 - dt * 3) - (x - y) * (a - dt * 3) + x * (om - (1 - a))
      + (p1 - x * om) + (p2 - y * a) + (r - (p1 + p2)) := by ring
  rw [hid]
  rw [abs_le] at T1 T2 T3 E1b E2b E3b ⊢
  constructor <;>
    linarith [T1.1, T1.2, T2.1, T2.2, T3.1, T3.2, E1b.1, E1b.2, E2b.1, E2b.2, E3b.1, E3b.2]

theorem f32_sixtieth : f32 (1/60) = (8947849/536870912) := by
  rw [f32_eq_near _ (-6) (8947849) (by norm_num) (by norm_num) (by norm_num) (by norm_num)
    (by norm_num)]
  norm_num

/-- With blend factor 3 the blend of 0 towards 1 is 3. -/
theorem mix_overshoot : mix 0 1 (fmul 1 3) = 3 := by
  have ha : fmul 1 3 = 3 := by
    unfold fmul
    rw [f32_eq_near _ (1) (12582912) (by norm_num) (by norm_num) (by norm_num) (by norm_num)
      (by norm_num)]
    norm_num
  have hom : fsub 1 3 = (-2) := by
    unfold fsub
    rw [f32_eq_near _ (1) (-8388608) (by norm_num) (by norm_num) (by norm_num) (by norm_num)
      (by norm_num)]
    norm_num
  have hp1 : fmul 0 (-2) = 0 := by
    unfold fmul
    norm_num [f32_zero]
  have hr : fadd 0 3 = 3 := by
    unfold fadd
    rw [f32_eq_near _ (1) (12582912) (by norm_num) (by norm_num) (by norm_num) (by norm_num)
      (by norm_num)]
    norm_num
  simp only [mix, ha, hom, hp1, hr]

/-- At `dt = fl(1/60)` the blend of 1.625 towards 1.625 is one unit in the last place
below 1.625. -/
theorem mix_steady : mix (13/8) (13/8) (fmul (f32 (1/60)) 3) = 13631487/8388608 := by
  have ha : fmul (8947849/536870912) 3 = (6710887/134217728) := by
    unfold fmul
    rw [f32_eq_tie _ (-5) (13421774) (by norm_num) (by norm_num) (by norm_num) (by norm_num)
      (by norm_num)]
    norm_num
  have hom : fsub 1 (6710887/134217728) = (15938355/16777216) := by
    unfold fsub
    rw [f32_eq_near _ (-1) (15938355) (by norm_num) (by norm_num) (by norm_num) (by norm_num)
      (by norm_num)]
    norm_num
  have hp1 : fmul (13/8) (15938355/16777216) = (12949913/8388608) := by
    unfold fmul
    rw [f32_eq_near _ (0) (12949913) (by norm_num) (by norm_num) (by norm_num) (by norm_num)
      (by norm_num)]
    norm_num
  have hp2 : fmul (13/8) (6710887/134217728) = (10905191/134217728) := by
    unfold fmul
    rw [f32_eq_near _ (-4) (10905191) (by norm_num) (by norm_num) (by norm_num) (by norm_num)
      (by norm_num)]
    norm_num
  have hr : fadd (12949913/8388608) (10905191/134217728) = (13631487/8388608) := by
    unfold fadd
    rw [f32_eq_near _ (0) (13631487) (by norm_num) (by norm_num) (by norm_num) (by norm_num)
      (by norm_num)]
    norm_num
  simp only [mix, f32_sixtieth, ha, hom, hp1, hp2, hr]

/-! ## Lemmas on the per-frame functions -/

theorem updatePickup_collected (p : GameObject) (sb : ℚ) :
    (updatePickup p sb).collected = p.collected := by
  unfold updatePickup
  dsimp only
  split_ifs <;> rfl

theorem updatePickup_id (p : GameObject) (sb : ℚ) : (updatePickup p sb).id = p.id := by
  unfold updatePickup
  dsimp only
  split_ifs <;> rfl

theorem updatePickup_of_collected (p : GameObject) (sb : ℚ) (h : p.collected = true) :
    updatePickup p sb = p := by
  simp [updatePickup, h]

theorem renderPickups_fst (ps : List GameObject) :
    (renderPickups ps).1 = ps.map (fun p => updatePickup p (9/10)) := by
  induction ps with
  | nil => rfl
  | cons p rest ih => simp [renderPickups, ih]

theorem renderPickups_snd (ps : List GameObject) :
    (renderPickups ps).2
      = (ps.map (fun p => updatePickup p (9/10))).filter (fun p => !p.collected) := by
  induction ps with
  | nil => rfl
  | cons p rest ih =>
    cases hc : (updatePickup p (9/10)).collected <;>
      simp [renderPickups, ih, hc]

theorem collideOne_hit (ship : GameObject) (score : Int) (p : GameObject)
    (h : hit ship p = true) :
    collideOne ship score p =
      ({ ship with scale := fadd ship.scale (f32 (1/50)) }, wrapInt32 (score + 1),
        { p with collected := true }) := by
  unfold hit at h
  unfold collideOne
  rw [if_pos h]

theorem collideOne_miss (ship : GameObject) (score : Int) (p : GameObject)
    (h : ¬ hit ship p = true) : collideOne ship score p = (ship, score, p) := by
  unfold hit at h
  unfold collideOne
  rw [if_neg h]

theorem hits_scale (ship : GameObject) (s : ℚ) (ps : List GameObject) :
    hits { ship with scale := s } ps = hits ship ps := rfl

theorem collect_scale (ship : GameObject) (s : ℚ) :
    collect { ship with scale := s } = collect ship := rfl

theorem collisionLoop_eq (ship : GameObject) (score : Int) (ps : List GameObject) :
    collisionLoop ship score ps =
      ({ ship with scale := (fun x => fadd x (f32 (1/50)))^[hits ship ps] ship.scale },
        (fun x => wrapInt32 (x + 1))^[hits ship ps] score, ps.map (collect ship)) := by
  induction ps generalizing ship score with
  | nil => simp [collisionLoop, hits]
  | cons p rest ih =>
    rw [collisionLoop, ih]
    by_cases h : hit ship p = true
    · rw [collideOne_hit ship score p h]
      dsimp only
      rw [hits_scale, collect_scale]
      have hn : hits ship (p :: rest) = hits ship rest + 1 := by
        simp [hits, List.countP_cons, h]
      have hc : collect ship p = { p with collected := true } := by
        simp [collect, h]
      rw [hn, List.map_cons, hc, Function.iterate_succ_apply, Function.iterate_succ_apply]
    · rw [collideOne_miss ship score p h]
      dsimp only
      have hn : hits ship (p :: rest) = hits ship rest := by
        simp [hits, List.countP_cons, h]
      have hc : collect ship p = p := by
        simp [collect, h]
      rw [hn, List.map_cons, hc]

theorem collectedCount_le_length (ps : List GameObject) : collectedCount ps ≤ ps.length := by
  induction ps with
  | nil => simp [collectedCount]
  | cons p rest ih =>
    simp only [collectedCount, List.length_cons]
    split_ifs <;> omega

theorem collectedCount_eq_length_iff (ps : List GameObject) :
    collectedCount ps = ps.length ↔ ∀ p ∈ ps, p.collected = true := by
  induction ps with
  | nil => simp [collectedCount]
  | cons p rest ih =>
    have hle := collectedCount_le_length rest
    simp only [collectedCount, List.length_cons, List.mem_cons, forall_eq_or_imp]
    rw [← ih]
    cases hc : p.collected
    · simp only [Bool.false_eq_true, if_false, false_and, iff_false]
      omega
    · simp only [if_true, true_and]
      omega

theorem collectedCount_map_congr (f : GameObject → GameObject) (ps : List GameObject)
    (h : ∀ p, (f p).collected = p.collected) : collectedCount (ps.map f) = collectedCount ps := by
  induction ps with
  | nil => rfl
  | cons p rest ih => simp [collectedCount, ih, h]

theorem collectedCount_map_collect (ship : GameObject) (ps : List GameObject) :
    collectedCount (ps.map (collect ship)) = collectedCount ps + hits ship ps := by
  induction ps with
  | nil => simp [collectedCount, hits]
  | cons p rest ih =>
    unfold hits at ih ⊢
    simp only [List.map_cons, collectedCount, ih, List.countP_cons]
    by_cases h : hit ship p = true
    · have hp : p.collected = false := by
        unfold hit at h
        simp only [Bool.and_eq_true, Bool.not_eq_true'] at h
        exact h.2
      simp [collect, h, hp]
      omega
    · simp only [collect, h]
      simp
      omega

theorem collect_of_collected (ship p : GameObject) (h : p.collected = true) :
    collect ship p = p := by
  simp [collect, hit, h]

theorem framePickup_of_collected (ship p : GameObject) (h : p.collected = true) :
    framePickup ship p = p := by
  unfold framePickup
  rw [updatePickup_of_collected p _ h, collect_of_collected ship p h, ite_self]

theorem collect_position (ship p : GameObject) : (collect ship p).position = p.position := by
  unfold collect
  split_ifs <;> rfl

theorem collect_velocity (ship p : GameObject) : (collect ship p).velocity = p.velocity := by
  unfold collect
  split_ifs <;> rfl

theorem framePickup_position (ship p : GameObject) :
    (framePickup ship p).position = (updatePickup p (9/10)).position := by
  unfold framePickup
  split_ifs
  · rw [collect_position]
  · rfl

theorem framePickup_velocity (ship p : GameObject) :
    (framePickup ship p).velocity = (updatePickup p (9/10)).velocity := by
  unfold framePickup
  split_ifs
  · rw [collect_velocity]
  · rfl

theorem collisionEval_eq (g : Game) :
    collisionEval g =
      if g.ship.hasMoved = true then
        { g with
          ship := { g.ship with
            scale := (fun x => fadd x (f32 (1/50)))^[hits g.ship g.pickups] g.ship.scale }
          score := (fun x => wrapInt32 (x + 1))^[hits g.ship g.pickups] g.score
          pickups := g.pickups.map (collect g.ship) }
      else g := by
  unfold collisionEval
  split_ifs
  · simp only [collisionLoop_eq]
  · rfl

theorem frame_pickups (m : Libm) (g : Game) (inp : FrameInput) :
    (frame m g inp).1.pickups =
      g.pickups.map (framePickup (updateGameObject m g.ship inp.deltaTime inp.keyW inp.keyS)) := by
  simp only [frame, winCheck, collisionEval_eq, renderPickups_fst]
  split_ifs <;> simp [framePickup, *]

theorem frame_score (m : Libm) (g : Game) (inp : FrameInput) :
    (frame m g inp).1.score =
      if (updateGameObject m g.ship inp.deltaTime inp.keyW inp.keyS).hasMoved = true then
        (fun x => wrapInt32 (x + 1))^[hits
          (updateGameObject m g.ship inp.deltaTime inp.keyW inp.keyS)
          (g.pickups.map (fun p => updatePickup p (9/10)))] g.score
      else g.score := by
  simp only [frame, winCheck, collisionEval_eq, renderPickups_fst]
  split_ifs <;> simp

theorem frame_won (m : Libm) (g : Game) (inp : FrameInput) :
    (frame m g inp).1.won =
      if collectedCount (frame m g inp).1.pickups = (frame m g inp).1.pickups.length then true
      else g.won := by
  simp only [frame, winCheck, collisionEval_eq, renderPickups_fst]
  split_ifs <;> simp_all

theorem frame_shipStart (m : Libm) (g : Game) (inp : FrameInput) :
    (frame m g inp).1.shipStartX = g.shipStartX ∧ (frame m g inp).1.shipStartY = g.shipStartY := by
  simp only [frame, winCheck, collisionEval_eq, renderPickups_fst]
  split_ifs <;> simp

theorem frame_rendered (m : Libm) (g : Game) (inp : FrameInput) :
    (frame m g inp).2 =
      (if g.won = true then []
        else [updateGameObject m g.ship inp.deltaTime inp.keyW inp.keyS]) ++
      (g.pickups.map (fun p => updatePickup p (9/10))).filter (fun p => !p.collected) := by
  simp only [frame, renderPickups_snd]
  cases g.won <;> rfl

theorem frame_state (m : Libm) (g : Game) (inp : FrameInput) :
    (frame m g inp).1 =
      winCheck (collisionEval
        { g with
          ship := updateGameObject m g.ship inp.deltaTime inp.keyW inp.keyS
          pickups := g.pickups.map (fun p => updatePickup p (9/10)) }) := by
  simp only [frame, renderPickups_fst]

theorem updateGameObject_theta (m : Libm) (obj : GameObject) (dt : ℚ) (kW kS : Bool) :
    (updateGameObject m obj dt kW kS).theta = mix obj.theta obj.targetTheta (fmul dt 3) := by
  unfold updateGameObject
  dsimp only
  split_ifs <;> rfl

theorem updateGameObject_targetTheta (m : Libm) (obj : GameObject) (dt : ℚ) (kW kS : Bool) :
    (updateGameObject m obj dt kW kS).targetTheta = obj.targetTheta := by
  unfold updateGameObject
  dsimp only
  split_ifs <;> rfl

theorem updatePickup_position (p : GameObject) (sb : ℚ) (h : p.collected = false) :
    (updatePickup p sb).position = p.position.add (p.velocity.smul (1/5)) := by
  unfold updatePickup
  simp only [h, Bool.not_false, if_true]
  split_ifs <;> rfl

theorem updatePickup_velocity_x (p : GameObject) (sb : ℚ) (h : p.collected = false) :
    (updatePickup p sb).velocity.x =
      if p.position.x + p.velocity.x * (1/5) > sb ∨ p.position.x + p.velocity.x * (1/5) < -sb
      then -p.velocity.x else p.velocity.x := by
  unfold updatePickup
  simp only [h, Bool.not_false, if_true, Vec3.add, Vec3.smul]
  split_ifs <;> rfl

theorem updatePickup_velocity_y (p : GameObject) (sb : ℚ) (h : p.collected = false) :
    (updatePickup p sb).velocity.y =
      if p.position.y + p.velocity.y * (1/5) > sb ∨ p.position.y + p.velocity.y * (1/5) < -sb
      then -p.velocity.y else p.velocity.y := by
  unfold updatePickup
  simp only [h, Bool.not_false, if_true, Vec3.add, Vec3.smul]
  split_ifs <;> rfl

theorem axisOk_step (x v : ℚ) (h : AxisOk x v) :
    AxisOk (x + v * (1/5))
      (if x + v * (1/5) > 9/10 ∨ x + v * (1/5) < -(9/10) then -v else v) := by
  obtain ⟨hv, hx, hhi, hlo⟩ := h
  rw [abs_le] at hx
  rcases (abs_eq (by norm_num : (0 : ℚ) ≤ 1/100)).mp hv with hv1 | hv1
  · have hhi2 : x ≤ 9/10 := by
      by_contra hc
      push_neg at hc
      have := hhi hc
      linarith
    subst hv1
    unfold AxisOk
    split_ifs with hc
    · refine ⟨by norm_num, ?_, fun _ => by norm_num, fun hc2 => by linarith [hx.1]⟩
      rw [abs_le]
      constructor <;> linarith [hx.1]
    · push_neg at hc
      refine ⟨by norm_num, ?_, fun hc2 => by linarith [hc.1], fun hc2 => by linarith [hc.2]⟩
      rw [abs_le]
      constructor <;> linarith [hc.1, hc.2]
  · have hlo2 : -(9/10) ≤ x := by
      by_contra hc
      push_neg at hc
      have := hlo hc
      linarith
    subst hv1
    unfold AxisOk
    split_ifs with hc
    · refine ⟨by norm_num, ?_, fun hc2 => by linarith [hx.2], fun _ => by norm_num⟩
      rw [abs_le]
      constructor <;> linarith [hx.2]
    · push_neg at hc
      refine ⟨by norm_num, ?_, fun hc2 => by linarith [hc.1], fun hc2 => by linarith [hc.2]⟩
      rw [abs_le]
      constructor <;> linarith [hc.1, hc.2]

theorem axisOk_updatePickup (p : GameObject)
    (h : AxisOk p.position.x p.velocity.x ∧ AxisOk p.position.y p.velocity.y) :
    AxisOk (updatePickup p (9/10)).position.x (updatePickup p (9/10)).velocity.x ∧
    AxisOk (updatePickup p (9/10)).position.y (updatePickup p (9/10)).velocity.y := by
  cases hc : p.collected
  · rw [updatePickup_velocity_x p _ hc, updatePickup_velocity_y p _ hc,
      updatePickup_position p _ hc]
    exact ⟨axisOk_step _ _ h.1, axisOk_step _ _ h.2⟩
  · rw [updatePickup_of_collected p _ hc]
    exact h

/-! ## Lemmas on events and reachable states -/

theorem step_key_reset (m : Libm) (g : Game) (k sc a md : Int)
    (h : k = GLFW_KEY_R ∧ a = GLFW_PRESS) : step m g (.key k sc a md) = resetGame g := by
  simp only [step, keyCallback]
  rw [if_pos h]

theorem step_key_other (m : Libm) (g : Game) (k sc a md : Int)
    (h : ¬ (k = GLFW_KEY_R ∧ a = GLFW_PRESS)) : step m g (.key k sc a md) = g := by
  simp only [step, keyCallback]
  rw [if_neg h]

theorem step_of_isReset (m : Libm) (g : Game) (e : Event) (h : e.isReset = true) :
    step m g e = resetGame g := by
  cases e with
  | key k sc a md =>
    apply step_key_reset
    simpa [Event.isReset] using h
  | cursorPos x y w hgt => simp [Event.isReset] at h
  | frame inp => simp [Event.isReset] at h

theorem collectedCount_resetGame (g : Game) : collectedCount (resetGame g).pickups = 0 := by
  simp only [resetGame]
  generalize g.pickups = ps
  induction ps with
  | nil => rfl
  | cons p rest ih => simp [collectedCount, ih]

theorem step_pickups_length (m : Libm) (g : Game) (e : Event) :
    (step m g e).pickups.length = g.pickups.length := by
  cases e with
  | key k sc a md =>
    by_cases h : k = GLFW_KEY_R ∧ a = GLFW_PRESS
    · rw [step_key_reset m g k sc a md h]
      simp [resetGame]
    · rw [step_key_other m g k sc a md h]
  | cursorPos x y w hgt => rfl
  | frame inp =>
    show (frame m g inp).1.pickups.length = g.pickups.length
    rw [frame_pickups, List.length_map]

theorem reachable_length (m : Libm) (u : Nat → ℚ) (g : Game) (h : Reachable m u g) :
    g.pickups.length = 4 := by
  induction h with
  | init => rfl
  | next g e _ ih => rw [step_pickups_length, ih]

theorem won_step (m : Libm) (g : Game) (e : Event) (hlen : g.pickups.length = 4)
    (hw : g.won = true ↔ ∀ p ∈ g.pickups, p.collected = true) :
    (step m g e).won = true ↔ ∀ p ∈ (step m g e).pickups, p.collected = true := by
  cases e with
  | key k sc a md =>
    by_cases h : k = GLFW_KEY_R ∧ a = GLFW_PRESS
    · rw [step_key_reset m g k sc a md h]
      have h0 := collectedCount_resetGame g
      have hl : (resetGame g).pickups.length = 4 := by simp [resetGame, hlen]
      rw [← collectedCount_eq_length_iff, h0, hl]
      simp [resetGame]
    · rw [step_key_other m g k sc a md h]
      exact hw
  | cursorPos x y w hgt => exact hw
  | frame inp =>
    show (frame m g inp).1.won = true ↔ ∀ p ∈ (frame m g inp).1.pickups, p.collected = true
    rw [frame_won, ← collectedCount_eq_length_iff]
    split_ifs with hc
    · exact ⟨fun _ => hc, fun _ => rfl⟩
    · constructor
      · intro hwon
        exfalso
        apply hc
        rw [collectedCount_eq_length_iff, frame_pickups]
        intro p hp
        obtain ⟨q, hq, rfl⟩ := List.mem_map.mp hp
        have hqc := hw.mp hwon q hq
        rw [framePickup_of_collected _ q hqc]
        exact hqc
      · intro h
        exact absurd h hc

theorem score_step (m : Libm) (g : Game) (e : Event) (hlen : g.pickups.length = 4)
    (hs : g.score = (collectedCount g.pickups : Int)) :
    (step m g e).score = (collectedCount (step m g e).pickups : Int) := by
  cases e with
  | key k sc a md =>
    by_cases h : k = GLFW_KEY_R ∧ a = GLFW_PRESS
    · rw [step_key_reset m g k sc a md h, collectedCount_resetGame]
      rfl
    · rw [step_key_other m g k sc a md h]
      exact hs
  | cursorPos x y w hgt => exact hs
  | frame inp =>
    show (frame m g inp).1.score = (collectedCount (frame m g inp).1.pickups : Int)
    rw [frame_score, frame_pickups, hs]
    have hu : collectedCount (g.pickups.map (fun p => updatePickup p (9/10)))
        = collectedCount g.pickups :=
      collectedCount_map_congr _ _ (fun p => updatePickup_collected p _)
    split_ifs with hm
    · have hf : framePickup (updateGameObject m g.ship inp.deltaTime inp.keyW inp.keyS)
          = fun p => collect (updateGameObject m g.ship inp.deltaTime inp.keyW inp.keyS)
              (updatePickup p (9/10)) := by
        funext p
        simp [framePickup, hm]
      have hmm : g.pickups.map (fun p =>
            collect (updateGameObject m g.ship inp.deltaTime inp.keyW inp.keyS)
              (updatePickup p (9/10)))
          = (g.pickups.map (fun p => updatePickup p (9/10))).map
              (collect (updateGameObject m g.ship inp.deltaTime inp.keyW inp.keyS)) := by
        rw [List.map_map]
        rfl
      have hle := collectedCount_le_length ((g.pickups.map (fun p => updatePickup p (9/10))).map
        (collect (updateGameObject m g.ship inp.deltaTime inp.keyW inp.keyS)))
      rw [collectedCount_map_collect, hu, List.length_map, List.length_map, hlen] at hle
      rw [hf, hmm, collectedCount_map_collect, hu,
        incr_iterate _ _ (by omega) (by omega)]
      push_cast
      rfl
    · have hf : framePickup (updateGameObject m g.ship inp.deltaTime inp.keyW inp.keyS)
          = fun p => updatePickup p (9/10) := by
        funext p
        simp [framePickup, hm]
      rw [hf, hu]

theorem step_shipStart (m : Libm) (g : Game) (e : Event) :
    (step m g e).shipStartX = g.shipStartX ∧ (step m g e).shipStartY = g.shipStartY := by
  cases e with
  | key k sc a md =>
    by_cases h : k = GLFW_KEY_R ∧ a = GLFW_PRESS
    · rw [step_key_reset m g k sc a md h]
      exact ⟨rfl, rfl⟩
    · rw [step_key_other m g k sc a md h]
      exact ⟨rfl, rfl⟩
  | cursorPos x y w hgt => exact ⟨rfl, rfl⟩
  | frame inp => exact frame_shipStart m g inp

theorem reachable_shipStart (m : Libm) (u : Nat → ℚ) (g : Game) (h : Reachable m u g) :
    g.shipStartX = 0 ∧ g.shipStartY = 0 := by
  induction h with
  | init => exact ⟨rfl, rfl⟩
  | next g e _ ih =>
    obtain ⟨hx, hy⟩ := step_shipStart m g e
    rw [hx, hy]
    exact ih

theorem startup_axisOk (u : Nat → ℚ) :
    ∀ p ∈ (startup u).pickups,
      AxisOk p.position.x p.velocity.x ∧ AxisOk p.position.y p.velocity.y := by
  intro p hp
  simp only [startup, List.mem_cons, List.mem_singleton, List.not_mem_nil, or_false] at hp
  have e1 : |(1/100 : ℚ)| = 1/100 := abs_of_pos (by norm_num)
  have e2 : |(-1/100 : ℚ)| = 1/100 := by
    rw [abs_of_neg (by norm_num)]
    norm_num
  rcases hp with rfl | rfl | rfl | rfl <;>
    refine ⟨⟨?_, ?_, ?_, ?_⟩, ⟨?_, ?_, ?_, ?_⟩⟩ <;>
    first
      | exact e1
      | exact e2
      | (rw [abs_le]; constructor <;> norm_num [GameObject.new])
      | (intro hc; norm_num [GameObject.new] at hc ⊢)

theorem step_axisOk (m : Libm) (g : Game) (e : Event)
    (h : ∀ p ∈ g.pickups, AxisOk p.position.x p.velocity.x ∧ AxisOk p.position.y p.velocity.y) :
    ∀ p ∈ (step m g e).pickups,
      AxisOk p.position.x p.velocity.x ∧ AxisOk p.position.y p.velocity.y := by
  cases e with
  | key k sc a md =>
    by_cases hk : k = GLFW_KEY_R ∧ a = GLFW_PRESS
    · rw [step_key_reset m g k sc a md hk]
      intro p hp
      simp only [resetGame, List.mem_map] at hp
      obtain ⟨q, hq, rfl⟩ := hp
      exact h q hq
    · rw [step_key_other m g k sc a md hk]
      exact h
  | cursorPos x y w hgt => exact h
  | frame inp =>
    show ∀ p ∈ (frame m g inp).1.pickups, _
    rw [frame_pickups]
    intro p hp
    obtain ⟨q, hq, rfl⟩ := List.mem_map.mp hp
    rw [framePickup_position, framePickup_velocity]
    exact axisOk_updatePickup q (h q hq)

theorem reachable_axisOk (m : Libm) (u : Nat → ℚ) (g : Game) (h : Reachable m u g) :
    ∀ p ∈ g.pickups, AxisOk p.position.x p.velocity.x ∧ AxisOk p.position.y p.velocity.y := by
  induction h with
  | init => exact startup_axisOk u
  | next g e _ ih => exact step_axisOk m g e ih

/-! ## Lemmas on draw calls and object ids -/

theorem updateGameObject_id (m : Libm) (obj : GameObject) (dt : ℚ) (kW kS : Bool) :
    (updateGameObject m obj dt kW kS).id = obj.id := by
  unfold updateGameObject
  dsimp only
  split_ifs <;> rfl

theorem collect_id (ship p : GameObject) : (collect ship p).id = p.id := by
  unfold collect
  split_ifs <;> rfl

theorem framePickup_id (ship p : GameObject) : (framePickup ship p).id = p.id := by
  unfold framePickup
  split_ifs
  · rw [collect_id, updatePickup_id]
  · rw [updatePickup_id]

theorem frame_ship_id (m : Libm) (g : Game) (inp : FrameInput) :
    (frame m g inp).1.ship.id = g.ship.id := by
  simp only [frame, winCheck, collisionEval_eq, renderPickups_fst]
  split_ifs <;> simp [updateGameObject_id]

theorem step_ids (m : Libm) (g : Game) (e : Event) :
    (step m g e).ship.id = g.ship.id ∧
    (step m g e).pickups.map (fun p => p.id) = g.pickups.map (fun p => p.id) := by
  cases e with
  | key k sc a md =>
    by_cases h : k = GLFW_KEY_R ∧ a = GLFW_PRESS
    · rw [step_key_reset m g k sc a md h]
      refine ⟨rfl, ?_⟩
      simp only [resetGame, List.map_map]
      rfl
    · rw [step_key_other m g k sc a md h]
      exact ⟨rfl, rfl⟩
  | cursorPos x y w hgt => exact ⟨rfl, rfl⟩
  | frame inp =>
    refine ⟨frame_ship_id m g inp, ?_⟩
    show (frame m g inp).1.pickups.map (fun p => p.id) = _
    rw [frame_pickups, List.map_map]
    apply List.map_congr_left
    intro p _
    exact framePickup_id _ p

theorem reachable_ids (m : Libm) (u : Nat → ℚ) (g : Game) (h : Reachable m u g) :
    g.ship.id = 0 ∧ g.pickups.map (fun p => p.id) = [1, 2, 3, 4] := by
  induction h with
  | init => exact ⟨rfl, rfl⟩
  | next g e _ ih =>
    obtain ⟨h1, h2⟩ := step_ids m g e
    rw [h1, h2]
    exact ih

theorem step_keeps_collected (m : Libm) (g : Game) (e : Event) (hne : e.isReset = false)
    (i : Nat) (p : GameObject) (hp : g.pickups[i]? = some p) (hpc : p.collected = true) :
    (step m g e).pickups[i]? = some p := by
  cases e with
  | key k sc a md =>
    have h : ¬ (k = GLFW_KEY_R ∧ a = GLFW_PRESS) := by
      simpa [Event.isReset] using hne
    rw [step_key_other m g k sc a md h]
    exact hp
  | cursorPos x y w hgt => exact hp
  | frame inp =>
    show (frame m g inp).1.pickups[i]? = some p
    rw [frame_pickups, List.getElem?_map, hp, Option.map_some', framePickup_of_collected _ p hpc]

theorem run_keeps_collected (m : Libm) (es : List Event) (hne : ∀ e ∈ es, e.isReset = false)
    (g : Game) (i : Nat) (p : GameObject) (hp : g.pickups[i]? = some p)
    (hpc : p.collected = true) : (run m g es).pickups[i]? = some p := by
  induction es generalizing g with
  | nil => exact hp
  | cons e rest ih =>
    show (run m (step m g e) rest).pickups[i]? = some p
    exact ih (fun e2 he2 => hne e2 (List.mem_cons_of_mem _ he2)) (step m g e)
      (step_keeps_collected m g e (hne e (List.mem_cons_self _ _)) i p hp hpc)

theorem reachable_run (m : Libm) (u : Nat → ℚ) (es : List Event) (g : Game)
    (h : Reachable m u g) : Reachable m u (run m g es) := by
  induction es generalizing g with
  | nil => exact h
  | cons e rest ih => exact ih (step m g e) (Reachable.next g e h)

theorem ids_index_eq (l : List GameObject) (hl : l.map (fun p => p.id) = [1, 2, 3, 4])
    (i j : Nat) (p q : GameObject) (hi : l[i]? = some p) (hj : l[j]? = some q)
    (hid : p.id = q.id) : i = j := by
  have h1 : (l.map (fun p => p.id))[i]? = some p.id := by
    rw [List.getElem?_map, hi]
    rfl
  have h2 : (l.map (fun p => p.id))[j]? = some q.id := by
    rw [List.getElem?_map, hj]
    rfl
  rw [hl] at h1 h2
  rw [hid] at h1
  rcases i with _ | _ | _ | _ | i <;> rcases j with _ | _ | _ | _ | j <;>
    simp at h1 h2 <;> omega

theorem ids_index_ne_zero (l : List GameObject) (hl : l.map (fun p => p.id) = [1, 2, 3, 4])
    (i : Nat) (p : GameObject) (hi : l[i]? = some p) : p.id ≠ 0 := by
  have h1 : (l.map (fun p => p.id))[i]? = some p.id := by
    rw [List.getElem?_map, hi]
    rfl
  rw [hl] at h1
  rcases i with _ | _ | _ | _ | i <;> simp at h1 <;> omega

theorem collected_not_drawn (m : Libm) (u : Nat → ℚ) (g : Game) (h : Reachable m u g)
    (i : Nat) (q : GameObject) (hq : g.pickups[i]? = some q) (hc : q.collected = true)
    (inp : FrameInput) : ∀ d ∈ (frame m g inp).2, d.id ≠ q.id := by
  obtain ⟨hs, hl⟩ := reachable_ids m u g h
  intro d hd
  rw [frame_rendered, List.mem_append] at hd
  rcases hd with hd | hd
  · have hds : d = updateGameObject m g.ship inp.deltaTime inp.keyW inp.keyS := by
      split_ifs at hd
      · simp at hd
      · simpa using hd
    rw [hds, updateGameObject_id, hs]
    exact (ids_index_ne_zero g.pickups hl i q hq).symm
  · rw [List.mem_filter, List.mem_map] at hd
    obtain ⟨⟨p, hp, rfl⟩, hpc⟩ := hd
    rw [updatePickup_collected] at hpc
    rw [updatePickup_id]
    intro hid
    obtain ⟨j, hj⟩ := List.getElem?_of_mem hp
    have hij := ids_index_eq g.pickups hl j i p q hj hq hid
    rw [hij, hq] at hj
    have hpq : q = p := Option.some.inj hj
    rw [hpq] at hc
    rw [hc] at hpc
    simp at hpc

/-! ## The first frame of the examples -/

theorem backShip_position :
    (updateGameObject libm0 (startup uninit0).ship backInput.deltaTime backInput.keyW
      backInput.keyS).position = ⟨-1/2, 0, 0⟩ := by
  simp [updateGameObject, startup, GameObject.new, backInput, libm0, Vec3.sub, Vec3.smul]
  norm_num

theorem backShip_hasMoved :
    (updateGameObject libm0 (startup uninit0).ship backInput.deltaTime backInput.keyW
      backInput.keyS).hasMoved = true := by
  simp [updateGameObject, backInput]

theorem framePickup_back_collected (ship p : GameObject) (hm : ship.hasMoved = true)
    (hs : ship.position = ⟨-1/2, 0, 0⟩) (hp : p.position = ⟨-1/2, 0, 0⟩)
    (hv : p.velocity = ⟨-1/100, -1/100, 0⟩) (hc : p.collected = false) :
    (framePickup ship p).collected = true := by
  have hpos : (updatePickup p (9/10)).position = ⟨-251/500, -1/500, 0⟩ := by
    rw [updatePickup_position p _ hc, hp, hv]
    simp [Vec3.add, Vec3.smul]
    norm_num
  have hcl : isCloseTo ship (updatePickup p (9/10)) = true := by
    rw [isCloseTo_eq_closePos, hs, hpos]
    exact closePos_back
  simp [framePickup, hm, collect, hit, hcl, updatePickup_collected, hc]

theorem afterBack_second :
    ∃ q, (frame libm0 (startup uninit0) backInput).1.pickups[1]? = some q ∧
      q.collected = true ∧ q.id = 2 := by
  rw [frame_pickups]
  refine ⟨_, rfl, ?_, ?_⟩
  · exact framePickup_back_collected _ _ backShip_hasMoved backShip_position rfl rfl rfl
  · exact framePickup_id _
      { GameObject.new (uninit0 2) with
        scale := 1/20, collected := false, id := 2
        position := ⟨-1/2, 0, 0⟩, velocity := ⟨-1/100, -1/100, 0⟩ }

theorem frame_positions (m : Libm) (g : Game) (inp : FrameInput) :
    (frame m g inp).1.pickups.map (fun p => p.position)
      = g.pickups.map (fun p => (updatePickup p (9/10)).position) := by
  rw [frame_pickups, List.map_map]
  apply List.map_congr_left
  intro p _
  exact framePickup_position _ p

theorem startup_moved_positions :
    (startup uninit0).pickups.map (fun p => (updatePickup p (9/10)).position)
      = [⟨101/500, 251/500, 0⟩, ⟨-251/500, -1/500, 0⟩, ⟨251/500, -101/500, 0⟩,
          ⟨-1/500, 51/500, 0⟩] := by
  simp [startup, GameObject.new, updatePickup_position, Vec3.add, Vec3.smul]
  norm_num

theorem resetGame_positions (g : Game) :
    (resetGame g).pickups.map (fun p => p.position) = g.pickups.map (fun p => p.position) := by
  simp only [resetGame, List.map_map]
  rfl

theorem collisionEval_single_hit (g : Game) (p : GameObject) (hm : g.ship.hasMoved = true)
    (hps : g.pickups = [p]) (hh : hit g.ship p = true) :
    collisionEval g =
      { g with
        ship := { g.ship with scale := fadd g.ship.scale (f32 (1/50)) }
        score := wrapInt32 (g.score + 1)
        pickups := [{ p with collected := true }] } := by
  have hk : hits g.ship g.pickups = 1 := by
    rw [hps]
    simp [hits, hh]
  rw [collisionEval_eq, if_pos hm, hk, hps]
  simp [collect, hh]

theorem collisionEval_single_miss (g : Game) (p : GameObject)
    (hps : g.pickups = [p]) (hh : hit g.ship p = false) : collisionEval g = g := by
  have hk : hits g.ship g.pickups = 0 := by
    rw [hps]
    simp [hits, hh]
  have hc : g.pickups.map (collect g.ship) = g.pickups := by
    rw [hps]
    simp [collect, hh]
  rw [collisionEval_eq, hk, hc]
  split_ifs <;> rfl

theorem hit_proximity : hit proximityShip proximityPickup = true := by
  unfold hit
  rw [isCloseTo_eq_closePos]
  show (closePos ⟨0, 0, 0⟩ ⟨f32 (1/20), 0, 0⟩ && !false) = true
  rw [f32_0_05, closePos_proximity]
  rfl

theorem hit_edge : hit proximityShip edgePickup = false := by
  unfold hit
  rw [isCloseTo_eq_closePos]
  show (closePos ⟨0, 0, 0⟩ ⟨2013937/33554432, 2683851/33554432, 0⟩ && !false) = false
  rw [closePos_edge]
  rfl

/-! ## Verified properties -/

/-- C1. In every state reachable from the startup state by frames, key events and cursor
events there are four pickups, and the win flag is set if and only if every pickup is
collected, that is if and only if the count of collected pickups is 4 (so 3 collected
pickups leave `won = false`). -/
theorem won_iff_all_collected (m : Libm) (u : Nat → ℚ) (g : Game) (h : Reachable m u g) :
    g.pickups.length = 4 ∧
    (g.won = true ↔ ∀ p ∈ g.pickups, p.collected = true) ∧
    (g.won = true ↔ collectedCount g.pickups = 4) := by
  have hlen := reachable_length m u g h
  have hw : g.won = true ↔ ∀ p ∈ g.pickups, p.collected = true := by
    induction h with
    | init => simp [startup, GameObject.new]
    | next g e hr ih => exact won_step m g e (reachable_length m u g hr) (ih (reachable_length m u g hr))
  refine ⟨hlen, hw, ?_⟩
  rw [hw, ← collectedCount_eq_length_iff, hlen]

/-- C3. In every reachable state the score equals the number of collected pickups, and so
lies between 0 and 4. -/
theorem score_eq_collectedCount (m : Libm) (u : Nat → ℚ) (g : Game) (h : Reachable m u g) :
    g.score = (collectedCount g.pickups : Int) ∧ 0 ≤ g.score ∧ g.score ≤ 4 := by
  have hlen := reachable_length m u g h
  have hs : g.score = (collectedCount g.pickups : Int) := by
    induction h with
    | init => simp [startup, GameObject.new, collectedCount]
    | next g e hr ih =>
      exact score_step m g e (reachable_length m u g hr) (ih (reachable_length m u g hr))
  have hle := collectedCount_le_length g.pickups
  refine ⟨hs, ?_, ?_⟩ <;> omega

theorem afterBack_eq : afterBack = (frame libm0 (startup uninit0) backInput).1 := rfl

theorem afterBack_reachable : Reachable libm0 uninit0 afterBack :=
  Reachable.next _ _ Reachable.init

/-- Witness for C1: the state after a first frame that collects pickup 2. -/
theorem won_iff_all_collected_witness :
    Reachable libm0 uninit0 afterBack ∧
    afterBack.pickups.length = 4 ∧
    (afterBack.won = true ↔ ∀ p ∈ afterBack.pickups, p.collected = true) ∧
    (afterBack.won = true ↔ collectedCount afterBack.pickups = 4) :=
  ⟨afterBack_reachable, won_iff_all_collected libm0 uninit0 afterBack afterBack_reachable⟩

/-- Witness for C3: the state after a first frame that collects pickup 2. -/
theorem score_eq_collectedCount_witness :
    Reachable libm0 uninit0 afterBack ∧
    afterBack.score = (collectedCount afterBack.pickups : Int) ∧
    0 ≤ afterBack.score ∧ afterBack.score ≤ 4 :=
  ⟨afterBack_reachable, score_eq_collectedCount libm0 uninit0 afterBack afterBack_reachable⟩

/-- C2. From every game state, `won` or not, `resetGame` gives score 0, `won = false`, the
same number of pickups all with `collected = false`, the ship at
`(shipStartX, shipStartY, 0)` with scale 0.08 and `hasMoved = false`; 0.08 is the ship scale
of the startup state and `shipStartX`, `shipStartY` are the ship position at startup. The
`R` key press is `resetGame`. -/
theorem resetGame_restores (m : Libm) (u : Nat → ℚ) (g : Game) (sc md : Int) :
    (resetGame g).score = 0 ∧
    (resetGame g).won = false ∧
    (resetGame g).pickups.length = g.pickups.length ∧
    (∀ p ∈ (resetGame g).pickups, p.collected = false) ∧
    (resetGame g).ship.position = ⟨g.shipStartX, g.shipStartY, 0⟩ ∧
    (resetGame g).ship.scale = 2/25 ∧
    (resetGame g).ship.hasMoved = false ∧
    (startup u).ship.scale = 2/25 ∧
    (startup u).ship.position = ⟨(startup u).shipStartX, (startup u).shipStartY, 0⟩ ∧
    step m g (.key GLFW_KEY_R sc GLFW_PRESS md) = resetGame g := by
  refine ⟨rfl, rfl, ?_, ?_, rfl, rfl, rfl, rfl, rfl, ?_⟩
  · simp [resetGame]
  · intro p hp
    simp only [resetGame, List.mem_map] at hp
    obtain ⟨q, _, rfl⟩ := hp
    rfl
  · exact step_key_reset m g _ sc _ md ⟨rfl, rfl⟩

/-- C4, as stated, fails on the code's arithmetic. In the claim's own scenario (ship at the
origin with scale `0.08f`, uncollected pickup at `(0.05f, 0, 0)`, `hasMoved = true`) the
pickup is collected and the scale becomes `0.08f + 0.02f` rounded, `0.099999994`, which is
not the old scale plus 0.02. A pickup at exact distance below 0.1 whose binary32 length
rounds to `0.1f` is not collected. At score `INT_MAX` the increment wraps to `INT_MIN`. -/
theorem collisionEval_not_exact :
    (proximityGame.ship.hasMoved = true ∧
      (collisionEval proximityGame).pickups.map (fun p => p.collected) = [true] ∧
      (collisionEval proximityGame).ship.scale = 3355443/33554432 ∧
      (collisionEval proximityGame).ship.scale ≠ proximityGame.ship.scale + 1/50) ∧
    (edgeGame.ship.hasMoved = true ∧
      (∀ p ∈ edgeGame.pickups, p.collected = false ∧
        distSq edgeGame.ship.position p.position < (1/10) ^ 2) ∧
      collisionEval edgeGame = edgeGame) ∧
    (maxScoreGame.ship.hasMoved = true ∧
      (collisionEval maxScoreGame).score = -2147483648 ∧
      (collisionEval maxScoreGame).score ≠ maxScoreGame.score + 1) := by
  have hp := collisionEval_single_hit proximityGame proximityPickup rfl rfl hit_proximity
  have he := collisionEval_single_miss edgeGame edgePickup rfl hit_edge
  have hx := collisionEval_single_hit maxScoreGame proximityPickup rfl rfl hit_proximity
  have hs : (collisionEval proximityGame).ship.scale = 3355443/33554432 := by
    rw [hp]
    exact fadd_0_08_0_02
  have hm : (collisionEval maxScoreGame).score = -2147483648 := by
    rw [hx]
    rfl
  refine ⟨⟨rfl, ?_, hs, ?_⟩, ⟨rfl, ?_, he⟩, ⟨rfl, hm, ?_⟩⟩
  · rw [hp]
    rfl
  · rw [hs]
    show (3355443/33554432 : ℚ) ≠ f32 (2/25) + 1/50
    rw [f32_0_08]
    norm_num
  · intro p hp2
    have hpe : p = edgePickup := by
      simpa [edgeGame] using hp2
    subst hpe
    refine ⟨rfl, ?_⟩
    show distSq ⟨0, 0, 0⟩ ⟨2013937/33554432, 2683851/33554432, 0⟩ < (1/10) ^ 2
    norm_num [distSq]
  · rw [hm]
    show (-2147483648 : Int) ≠ 2147483647 + 1
    norm_num

/-- C4, amended. The collision evaluation leaves the game as it is when the ship's `hasMoved`
is false. When it is true, every pickup that passes the binary32 proximity test `isCloseTo`
and is not yet collected becomes collected and every other pickup is unchanged; with `k` the
number of such pickups, the score is incremented `k` times on `int`, which is `score + k`
when that stays within `int`, the ship's scale is replaced `k` times by the binary32 sum
`scale + 0.02f`, and nothing else changes. `isCloseTo` is the test that the binary32 length
of the binary32 difference of the two positions is below `0.1f`. -/
theorem collisionEval_spec (g : Game) :
    (g.ship.hasMoved = false → collisionEval g = g) ∧
    (g.ship.hasMoved = true →
      (collisionEval g).pickups =
        g.pickups.map (fun p =>
          if isCloseTo g.ship p = true ∧ p.collected = false then { p with collected := true }
          else p) ∧
      (collisionEval g).score =
        (fun n => wrapInt32 (n + 1))^[g.pickups.countP
          (fun p => isCloseTo g.ship p && !p.collected)] g.score ∧
      (collisionEval g).ship =
        { g.ship with
          scale := (fun x => fadd x (f32 (1/50)))^[g.pickups.countP
            (fun p => isCloseTo g.ship p && !p.collected)] g.ship.scale } ∧
      (collisionEval g).won = g.won ∧
      (collisionEval g).shipStartX = g.shipStartX ∧
      (collisionEval g).shipStartY = g.shipStartY) ∧
    (-2147483648 ≤ g.score →
      g.score + (g.pickups.countP (fun p => isCloseTo g.ship p && !p.collected) : Nat)
        < 2147483648 →
      (fun n => wrapInt32 (n + 1))^[g.pickups.countP
          (fun p => isCloseTo g.ship p && !p.collected)] g.score
        = g.score + (g.pickups.countP (fun p => isCloseTo g.ship p && !p.collected) : Nat)) ∧
    (∀ p : GameObject, isCloseTo g.ship p = true ↔
      fsqrt ((g.ship.position.fsub p.position).dot (g.ship.position.fsub p.position))
        < f32 (1/10)) := by
  refine ⟨?_, ?_, fun h0 h1 => incr_iterate _ _ h0 h1, fun p => ?_⟩
  · intro h
    rw [collisionEval_eq]
    simp [h]
  · intro h
    rw [collisionEval_eq, if_pos h]
    refine ⟨?_, rfl, rfl, rfl, rfl, rfl⟩
    apply List.map_congr_left
    intro p _
    simp [collect, hit]
  · simp [isCloseTo, Vec3.length]

/-- Witness for C4 amended: the ship at `(0,0,0)` with scale `0.08f` and `hasMoved = true` and
one uncollected pickup at `(0.05f,0,0)`: the pickup becomes collected, the score grows by 1,
the scale becomes the binary32 sum `0.08f + 0.02f`. -/
theorem collisionEval_spec_witness :
    proximityGame.ship.hasMoved = true ∧
    proximityGame.ship.position = ⟨0, 0, 0⟩ ∧
    proximityGame.ship.scale = f32 (2/25) ∧
    proximityGame.pickups.map (fun p => (p.position, p.collected))
      = [(⟨f32 (1/20), 0, 0⟩, false)] ∧
    (collisionEval proximityGame).pickups.map (fun p => p.collected) = [true] ∧
    (collisionEval proximityGame).score = proximityGame.score + 1 ∧
    (collisionEval proximityGame).ship.scale = fadd (f32 (2/25)) (f32 (1/50)) := by
  have h := (collisionEval_spec proximityGame).2.1 rfl
  have hi : isCloseTo proximityShip proximityPickup = true ∧
      proximityPickup.collected = false := by
    simpa [hit] using hit_proximity
  have hk : proximityGame.pickups.countP
      (fun p => isCloseTo proximityGame.ship p && !p.collected) = 1 := by
    show List.countP (fun p => isCloseTo proximityShip p && !p.collected) [proximityPickup] = 1
    simp [hi.1, hi.2]
  refine ⟨rfl, rfl, rfl, rfl, ?_, ?_, ?_⟩
  · rw [h.1]
    show List.map (fun p : GameObject => p.collected)
      (List.map (fun p : GameObject =>
        if isCloseTo proximityShip p = true ∧ p.collected = false then
          { p with collected := true }
        else p) [proximityPickup]) = [true]
    simp [hi.1, hi.2]
  · rw [h.2.1, hk]
    rfl
  · rw [h.2.2.1, hk]
    rfl

/-- C5, as stated, fails. With `dt = 1`, `theta = 0` and `targetTheta = 1` the blend factor
is 3, the new angle is 3, and its distance 2 to the target exceeds the old distance 1. And
with `dt = fl(1/60)` and `theta = targetTheta = 1.625` rounding moves the angle off the
target, from distance 0 to distance `2^-23`. -/
theorem theta_step_overshoots :
    ((0 : ℚ) ≤ 1 ∧
      turningShip.theta = 0 ∧ turningShip.targetTheta = 1 ∧
      (updateGameObject libm0 turningShip 1 false false).theta = 3 ∧
      ¬ (|(updateGameObject libm0 turningShip 1 false false).theta - turningShip.targetTheta|
          ≤ |turningShip.theta - turningShip.targetTheta|)) ∧
    ((0 : ℚ) ≤ f32 (1/60) ∧ f32 (1/60) ≤ 2/3 ∧
      steadyShip.theta = 13/8 ∧ steadyShip.targetTheta = 13/8 ∧
      (updateGameObject libm0 steadyShip (f32 (1/60)) false false).theta = 13631487/8388608 ∧
      ¬ (|(updateGameObject libm0 steadyShip (f32 (1/60)) false false).theta
            - steadyShip.targetTheta|
          ≤ |steadyShip.theta - steadyShip.targetTheta|)) := by
  have h : (updateGameObject libm0 turningShip 1 false false).theta = 3 := by
    rw [updateGameObject_theta]
    exact mix_overshoot
  have h2 : (updateGameObject libm0 steadyShip (f32 (1/60)) false false).theta
      = 13631487/8388608 := by
    rw [updateGameObject_theta]
    exact mix_steady
  refine ⟨⟨by norm_num, rfl, rfl, h, ?_⟩, ⟨?_, ?_, rfl, rfl, h2, ?_⟩⟩
  · rw [h]
    norm_num [turningShip, GameObject.new]
  · rw [f32_sixtieth]
    norm_num
  · rw [f32_sixtieth]
    norm_num
  · rw [h2]
    norm_num [steadyShip, GameObject.new]

/-- C5, amended. For every `dt` with `0 ≤ dt ≤ 2/3` (blend factor `dt * rotationSpeed` at most
2) and angles of magnitude at most `M ≤ 2^126`, the rotation update of `updateGameObject`,
`theta = mix(theta, targetTheta, dt * 3)` evaluated in binary32, leaves `targetTheta`
unchanged and brings `theta` no farther from it than before, up to rounding:
`|theta_new - targetTheta| ≤ |theta_old - targetTheta| + M * 2^-19 + 2^-147`. The bound
`2^126` keeps every intermediate result below the binary32 overflow threshold. -/
theorem theta_step_contracts (m : Libm) (obj : GameObject) (dt M : ℚ) (kW kS : Bool)
    (h0 : 0 ≤ dt) (h1 : dt ≤ 2/3)
    (hθ : |obj.theta| ≤ M) (ht : |obj.targetTheta| ≤ M) (_hM : M ≤ 2 ^ 126) :
    (updateGameObject m obj dt kW kS).theta = mix obj.theta obj.targetTheta (fmul dt 3) ∧
    (updateGameObject m obj dt kW kS).targetTheta = obj.targetTheta ∧
    |(updateGameObject m obj dt kW kS).theta - obj.targetTheta|
      ≤ |obj.theta - obj.targetTheta| + M * 2 ^ (-19 : ℤ) + 2 ^ (-147 : ℤ) := by
  refine ⟨updateGameObject_theta m obj dt kW kS, updateGameObject_targetTheta m obj dt kW kS, ?_⟩
  rw [updateGameObject_theta]
  exact mix_error obj.theta obj.targetTheta dt M h0 h1 hθ ht

/-- Witness for C5 amended: a quarter-second frame of the ship at angle 0 with target 1. -/
theorem theta_step_contracts_witness :
    (0 : ℚ) ≤ 1/4 ∧ (1/4 : ℚ) ≤ 2/3 ∧
    |turningShip.theta| ≤ 1 ∧ |turningShip.targetTheta| ≤ 1 ∧ (1 : ℚ) ≤ 2 ^ 126 ∧
    (updateGameObject libm0 turningShip (1/4) false false).theta
      = mix turningShip.theta turningShip.targetTheta (fmul (1/4) 3) ∧
    (updateGameObject libm0 turningShip (1/4) false false).targetTheta
      = turningShip.targetTheta ∧
    |(updateGameObject libm0 turningShip (1/4) false false).theta - turningShip.targetTheta|
      ≤ |turningShip.theta - turningShip.targetTheta| + 1 * 2 ^ (-19 : ℤ) + 2 ^ (-147 : ℤ) :=
  ⟨by norm_num, by norm_num, by norm_num [turningShip, GameObject.new],
    by norm_num [turningShip, GameObject.new], by norm_num,
    theta_step_contracts libm0 turningShip (1/4) 1 false false (by norm_num) (by norm_num)
      (by norm_num [turningShip, GameObject.new]) (by norm_num [turningShip, GameObject.new])
      (by norm_num)⟩

/-- C6, as stated, fails for a collected pickup: `updatePickup` leaves it as it is, so
`velocity.x` stays `+v` at `position.x = screenBoundary + ε`. -/
theorem updatePickup_collected_no_bounce :
    (0 : ℚ) < 1/10 ∧ (0 : ℚ) < 1/100 ∧
    collectedOutside.position.x = 9/10 + 1/10 ∧
    collectedOutside.velocity.x = 1/100 ∧
    (updatePickup collectedOutside (9/10)).velocity.x = 1/100 ∧
    (updatePickup collectedOutside (9/10)).velocity.x ≠ -(1/100) := by
  have h : updatePickup collectedOutside (9/10) = collectedOutside :=
    updatePickup_of_collected _ _ rfl
  rw [h]
  refine ⟨by norm_num, by norm_num, ?_, rfl, rfl, ?_⟩
  · norm_num [collectedOutside]
  · norm_num [collectedOutside, GameObject.new]

/-- C6, amended. For every pickup that is not collected, every `screenBoundary`, `ε > 0` and
`v > 0`: if `position.x = screenBoundary + ε` and `velocity.x = v` before `updatePickup`, then
`velocity.x = -v` after it; the new `position.y` is `position.y + velocity.y * 0.2`, and
`velocity.y` is unchanged when that lies within `[-screenBoundary, screenBoundary]`. -/
theorem updatePickup_bounce (p : GameObject) (sb ε v : ℚ) (hc : p.collected = false)
    (hε : 0 < ε) (hv : 0 < v) (hx : p.position.x = sb + ε) (hvx : p.velocity.x = v) :
    (updatePickup p sb).velocity.x = -v ∧
    (updatePickup p sb).position.y = p.position.y + p.velocity.y * (1/5) ∧
    (-sb ≤ (updatePickup p sb).position.y ∧ (updatePickup p sb).position.y ≤ sb →
      (updatePickup p sb).velocity.y = p.velocity.y) := by
  have hy : (updatePickup p sb).position.y = p.position.y + p.velocity.y * (1/5) := by
    rw [updatePickup_position p sb hc]
    rfl
  refine ⟨?_, hy, ?_⟩
  · rw [updatePickup_velocity_x p sb hc, hx, hvx, if_pos]
    left
    linarith
  · intro hin
    rw [hy] at hin
    rw [updatePickup_velocity_y p sb hc, if_neg]
    intro h
    rcases h with h | h <;> linarith [hin.1, hin.2]

/-- Witness for C6 amended: an uncollected pickup at `x = 0.9 + 0.1` moving right at 0.01
leaves `updatePickup` moving left at 0.01. -/
theorem updatePickup_bounce_witness :
    uncollectedOutside.collected = false ∧ (0 : ℚ) < 1/10 ∧ (0 : ℚ) < 1/100 ∧
    uncollectedOutside.position.x = 9/10 + 1/10 ∧
    uncollectedOutside.velocity.x = 1/100 ∧
    (updatePickup uncollectedOutside (9/10)).velocity.x = -(1/100) :=
  ⟨rfl, by norm_num, by norm_num, by norm_num [uncollectedOutside], rfl,
    (updatePickup_bounce uncollectedOutside (9/10) (1/10) (1/100) rfl (by norm_num)
      (by norm_num) (by norm_num [uncollectedOutside]) rfl).1⟩

/-- C7. At startup no pickup is collected, and every event that is not the reset key press
(a frame, a cursor event, any other key event) keeps the number of pickups and keeps
`collected = true` for every pickup that had it. Phase by phase: `updatePickup` does not touch
`collected`, the collision evaluation keeps `collected = true`, the win check does not touch
the pickups. -/
theorem collected_monotone (m : Libm) (u : Nat → ℚ) (g : Game) (e : Event)
    (hne : e.isReset = false) :
    (∀ p ∈ (startup u).pickups, p.collected = false) ∧
    (step m g e).pickups.length = g.pickups.length ∧
    (∀ (i : Nat) (p : GameObject), g.pickups[i]? = some p → p.collected = true →
      ∃ q, (step m g e).pickups[i]? = some q ∧ q.collected = true) ∧
    (∀ (p : GameObject) (sb : ℚ), (updatePickup p sb).collected = p.collected) ∧
    (∀ (i : Nat) (p : GameObject), g.pickups[i]? = some p → p.collected = true →
      ∃ q, (collisionEval g).pickups[i]? = some q ∧ q.collected = true) ∧
    (winCheck g).pickups = g.pickups := by
  refine ⟨?_, step_pickups_length m g e, ?_, updatePickup_collected, ?_, ?_⟩
  · simp [startup, GameObject.new]
  · intro i p hp hpc
    exact ⟨p, step_keeps_collected m g e hne i p hp hpc, hpc⟩
  · intro i p hp hpc
    refine ⟨p, ?_, hpc⟩
    rw [collisionEval_eq]
    split_ifs
    · show (g.pickups.map (collect g.ship))[i]? = some p
      rw [List.getElem?_map, hp, Option.map_some', collect_of_collected _ p hpc]
    · exact hp
  · unfold winCheck
    split_ifs <;> rfl

/-- Witness for C7: pickup 2 (index 1), collected in the first frame, is still collected after
a second frame. -/
theorem collected_monotone_witness :
    (Event.frame backInput).isReset = false ∧
    (∃ p, afterBack.pickups[1]? = some p ∧ p.collected = true) ∧
    (∃ q, (step libm0 afterBack (.frame backInput)).pickups[1]? = some q ∧
      q.collected = true) := by
  have hp : ∃ p, afterBack.pickups[1]? = some p ∧ p.collected = true := by
    obtain ⟨q, h1, h2, _⟩ := afterBack_second
    exact ⟨q, h1, h2⟩
  obtain ⟨p, hp1, hp2⟩ := hp
  exact ⟨rfl, ⟨p, hp1, hp2⟩,
    (collected_monotone libm0 uninit0 afterBack (.frame backInput) rfl).2.2.1 1 p hp1 hp2⟩

/-- C10. In every reachable state there are four pickups and each of them has speed 0.01 on
both axes, lies within `0.9 + 0.2 * 0.01` of the origin on both axes, and wherever a
coordinate is beyond `±0.9` the matching velocity component points back inward. -/
theorem pickup_motion_bounded (m : Libm) (u : Nat → ℚ) (g : Game) (h : Reachable m u g) :
    g.pickups.length = 4 ∧
    ∀ p ∈ g.pickups,
      |p.velocity.x| = 1/100 ∧ |p.velocity.y| = 1/100 ∧
      |p.position.x| ≤ 9/10 + 1/5 * (1/100) ∧ |p.position.y| ≤ 9/10 + 1/5 * (1/100) ∧
      (9/10 < p.position.x → p.velocity.x < 0) ∧ (p.position.x < -(9/10) → 0 < p.velocity.x) ∧
      (9/10 < p.position.y → p.velocity.y < 0) ∧ (p.position.y < -(9/10) → 0 < p.velocity.y) := by
  refine ⟨reachable_length m u g h, ?_⟩
  intro p hp
  obtain ⟨⟨a1, a2, a3, a4⟩, ⟨b1, b2, b3, b4⟩⟩ := reachable_axisOk m u g h p hp
  exact ⟨a1, b1, a2, b2, a3, a4, b3, b4⟩

/-- Witness for C10: the state after a first frame. -/
theorem pickup_motion_bounded_witness :
    Reachable libm0 uninit0 afterBack ∧
    afterBack.pickups.length = 4 ∧
    ∀ p ∈ afterBack.pickups,
      |p.velocity.x| = 1/100 ∧ |p.velocity.y| = 1/100 ∧
      |p.position.x| ≤ 9/10 + 1/5 * (1/100) ∧ |p.position.y| ≤ 9/10 + 1/5 * (1/100) ∧
      (9/10 < p.position.x → p.velocity.x < 0) ∧ (p.position.x < -(9/10) → 0 < p.velocity.x) ∧
      (9/10 < p.position.y → p.velocity.y < 0) ∧ (p.position.y < -(9/10) → 0 < p.velocity.y) :=
  ⟨afterBack_reachable, pickup_motion_bounded libm0 uninit0 afterBack afterBack_reachable⟩

/-- C8, as stated, fails: after one frame the pickups have moved, and the reset key press
leaves them where they are, so the state after reset is not the startup state. -/
theorem reset_not_startup :
    Reachable libm0 uninit0 afterBack ∧
    (step libm0 afterBack (.key GLFW_KEY_R 0 GLFW_PRESS 0)).pickups.map (fun p => p.position)
      = [⟨101/500, 251/500, 0⟩, ⟨-251/500, -1/500, 0⟩, ⟨251/500, -101/500, 0⟩,
          ⟨-1/500, 51/500, 0⟩] ∧
    (startup uninit0).pickups.map (fun p => p.position)
      = [⟨1/5, 1/2, 0⟩, ⟨-1/2, 0, 0⟩, ⟨1/2, -1/5, 0⟩, ⟨0, 1/10, 0⟩] ∧
    step libm0 afterBack (.key GLFW_KEY_R 0 GLFW_PRESS 0) ≠ startup uninit0 := by
  have h1 : (step libm0 afterBack (.key GLFW_KEY_R 0 GLFW_PRESS 0)).pickups.map
      (fun p => p.position)
      = [⟨101/500, 251/500, 0⟩, ⟨-251/500, -1/500, 0⟩, ⟨251/500, -101/500, 0⟩,
          ⟨-1/500, 51/500, 0⟩] := by
    rw [step_key_reset libm0 afterBack _ 0 _ 0 ⟨rfl, rfl⟩, resetGame_positions, afterBack_eq,
      frame_positions, startup_moved_positions]
  have h2 : (startup uninit0).pickups.map (fun p => p.position)
      = [⟨1/5, 1/2, 0⟩, ⟨-1/2, 0, 0⟩, ⟨1/2, -1/5, 0⟩, ⟨0, 1/10, 0⟩] := by
    simp [startup]
  refine ⟨afterBack_reachable, h1, h2, ?_⟩
  intro h
  rw [h, h2] at h1
  norm_num at h1

/-- C8, amended. For every reachable state the reset key press sets the score, the win flag,
every pickup's `collected` and the ship's position, scale and `hasMoved` to their startup
values, and leaves every pickup's position and velocity and the ship's `theta` and
`targetTheta` as they were before the reset. -/
theorem reset_restores_listed_fields (m : Libm) (u : Nat → ℚ) (g : Game) (e : Event)
    (h : Reachable m u g) (he : e.isReset = true) :
    (step m g e).score = (startup u).score ∧
    (step m g e).won = (startup u).won ∧
    (step m g e).pickups.map (fun p => p.collected)
      = (startup u).pickups.map (fun p => p.collected) ∧
    (step m g e).ship.position = (startup u).ship.position ∧
    (step m g e).ship.scale = (startup u).ship.scale ∧
    (step m g e).ship.hasMoved = (startup u).ship.hasMoved ∧
    (step m g e).pickups.map (fun p => p.position) = g.pickups.map (fun p => p.position) ∧
    (step m g e).pickups.map (fun p => p.velocity) = g.pickups.map (fun p => p.velocity) ∧
    (step m g e).ship.theta = g.ship.theta ∧
    (step m g e).ship.targetTheta = g.ship.targetTheta := by
  rw [step_of_isReset m g e he]
  obtain ⟨hx, hy⟩ := reachable_shipStart m u g h
  have hlen := reachable_length m u g h
  refine ⟨rfl, rfl, ?_, ?_, rfl, rfl, ?_, ?_, rfl, rfl⟩
  · simp only [resetGame, List.map_map]
    rcases hg : g.pickups with _ | ⟨a, _ | ⟨b, _ | ⟨c, _ | ⟨d, _ | ⟨e5, rest⟩⟩⟩⟩⟩ <;>
      rw [hg] at hlen <;> simp at hlen
    simp [startup, GameObject.new]
  · simp only [resetGame, hx, hy]
    rfl
  · simp only [resetGame, List.map_map]
    rfl
  · simp only [resetGame, List.map_map]
    rfl

/-- Witness for C8 amended: the reset key press after a first frame that collected pickup 2. -/
theorem reset_restores_listed_fields_witness :
    Reachable libm0 uninit0 afterBack ∧
    (Event.key GLFW_KEY_R 0 GLFW_PRESS 0).isReset = true ∧
    (step libm0 afterBack (.key GLFW_KEY_R 0 GLFW_PRESS 0)).score = (startup uninit0).score ∧
    (step libm0 afterBack (.key GLFW_KEY_R 0 GLFW_PRESS 0)).ship.position
      = (startup uninit0).ship.position ∧
    (step libm0 afterBack (.key GLFW_KEY_R 0 GLFW_PRESS 0)).pickups.map (fun p => p.position)
      = afterBack.pickups.map (fun p => p.position) := by
  have h := reset_restores_listed_fields libm0 uninit0 afterBack
    (.key GLFW_KEY_R 0 GLFW_PRESS 0) afterBack_reachable rfl
  exact ⟨afterBack_reachable, rfl, h.1, h.2.2.2.1, h.2.2.2.2.2.2.1⟩

/-- C9, as stated, fails: in a first frame that backs the ship onto pickup 2 the draw calls
are the ship (id 0) and pickups 1, 2, 3 and 4, although pickup 2 is collected by that frame's
collision evaluation. -/
theorem drawn_differs_from_uncollected_after :
    (frame libm0 (startup uninit0) backInput).2.map (fun d => d.id) = [0, 1, 2, 3, 4] ∧
    (∃ p, (startup uninit0).pickups[1]? = some p ∧ p.collected = false ∧ p.id = 2) ∧
    (∃ q, (frame libm0 (startup uninit0) backInput).1.pickups[1]? = some q ∧
      q.collected = true ∧ q.id = 2) := by
  refine ⟨?_, ⟨_, rfl, rfl, rfl⟩, afterBack_second⟩
  rw [frame_rendered]
  simp [startup, GameObject.new, updatePickup_collected, updatePickup_id, updateGameObject_id]

/-- C9, amended. In every frame from a reachable state the order is: ship update, ship draw
(when `won` was false at the start of the frame), the pickup loop, which updates each pickup
and draws it if it is uncollected, then the collision evaluation and the win check. So the
draw calls are the updated ship followed by the updated pickups that are uncollected before
that frame's collision evaluation; a pickup collected during a frame is still drawn in that
frame, and it is not drawn in any later frame as long as no reset happens. -/
theorem frame_draws_uncollected_before (m : Libm) (u : Nat → ℚ) (g : Game) (inp : FrameInput)
    (h : Reachable m u g) :
    (frame m g inp).2 =
      (if g.won = true then []
        else [updateGameObject m g.ship inp.deltaTime inp.keyW inp.keyS]) ++
      (g.pickups.map (fun p => updatePickup p (9/10))).filter (fun p => !p.collected) ∧
    (frame m g inp).1 =
      winCheck (collisionEval
        { g with
          ship := updateGameObject m g.ship inp.deltaTime inp.keyW inp.keyS
          pickups := g.pickups.map (fun p => updatePickup p (9/10)) }) ∧
    (∀ (i : Nat) (p q : GameObject), g.pickups[i]? = some p →
      (frame m g inp).1.pickups[i]? = some q → p.collected = false → q.collected = true →
      updatePickup p (9/10) ∈ (frame m g inp).2 ∧ (updatePickup p (9/10)).id = q.id) ∧
    (∀ (i : Nat) (q : GameObject), (frame m g inp).1.pickups[i]? = some q →
      q.collected = true →
      ∀ (es : List Event), (∀ e ∈ es, e.isReset = false) →
      ∀ (inp2 : FrameInput), ∀ d ∈ (frame m (run m (frame m g inp).1 es) inp2).2,
        d.id ≠ q.id) := by
  refine ⟨frame_rendered m g inp, frame_state m g inp, ?_, ?_⟩
  · intro i p q hp hq hpc _
    constructor
    · rw [frame_rendered, List.mem_append]
      right
      rw [List.mem_filter, List.mem_map]
      exact ⟨⟨p, List.getElem?_mem hp, rfl⟩, by simp [updatePickup_collected, hpc]⟩
    · rw [frame_pickups, List.getElem?_map, hp, Option.map_some'] at hq
      rw [← Option.some.inj hq, framePickup_id, updatePickup_id]
  · intro i q hq hqc es hes inp2
    have hr1 : Reachable m u (frame m g inp).1 := Reachable.next g (.frame inp) h
    exact collected_not_drawn m u _ (reachable_run m u es _ hr1) i q
      (run_keeps_collected m es hes _ i q hq hqc) hqc inp2

/-- Witness for C9 amended: from startup, pickup 2 (index 1) is collected by the first frame;
its updated state is among that frame's draw calls, and two frames later nothing with id 2
is drawn. -/
theorem frame_draws_uncollected_before_witness :
    Reachable libm0 uninit0 (startup uninit0) ∧
    (∃ p q, (startup uninit0).pickups[1]? = some p ∧
      (frame libm0 (startup uninit0) backInput).1.pickups[1]? = some q ∧
      p.collected = false ∧ q.collected = true ∧ q.id = 2 ∧
      updatePickup p (9/10) ∈ (frame libm0 (startup uninit0) backInput).2) ∧
    (∀ d ∈ (frame libm0
        (run libm0 (frame libm0 (startup uninit0) backInput).1 [Event.frame backInput])
        backInput).2, d.id ≠ 2) := by
  have h := frame_draws_uncollected_before libm0 uninit0 (startup uninit0) backInput
    Reachable.init
  obtain ⟨q, hq1, hq2, hq3⟩ := afterBack_second
  have hp : (startup uninit0).pickups[1]? = some
      { GameObject.new (uninit0 2) with
        scale := 1/20, collected := false, id := 2
        position := ⟨-1/2, 0, 0⟩, velocity := ⟨-1/100, -1/100, 0⟩ } := rfl
  refine ⟨Reachable.init, ⟨_, q, hp, hq1, rfl, hq2, hq3, (h.2.2.1 1 _ q hp hq1 rfl hq2).1⟩, ?_⟩
  intro d hd
  have hne : ∀ e ∈ [Event.frame backInput], e.isReset = false := by
    intro e he
    rw [List.mem_singleton] at he
    rw [he]
    rfl
  have := h.2.2.2 1 q hq1 hq2 [Event.frame backInput] hne backInput d hd
  rw [hq3] at this
  exact this

end ShipGame
